import Mathlib

/-!
Verification of the GenQL in-memory SQL engine against its specification.

The development shallowly embeds the Go source:
* `sentinel.go`            — the `SQLError` taxonomy;
* the selector engine      — lexer (`fullPattern` scanner), `ParseSelector`,
  `ParseArray`, `ParsePipe`, `SelectDimension`, `SelectMany`, `Unwind`,
  `SelectObject`, `Reader`, `ReaderExecutor`, `ExecReader`;
* `compare/compare.go`     — the cross-type comparator;
* `ValueOf` / `AsType`     — the value-of rule;
* `sort.go`                — the ORDER BY comparator `Compare` used by `Sort`;
* the evaluator            — `AndExpr`, `OrExpr`, `BinaryExpr`, literals,
  `BuilFromAliasedTable`, `ProcessAlias`, `AsArray`, `ExecGroupBy`,
  the LIMIT/OFFSET tail of `exec`, `RegexComparison`, and the backward
  navigation entry installed by `SubqueryExpr` / `ExistExpr`.

Go's dynamically typed `any` values are embedded as the inductive `Value`;
Go maps are embedded as association lists (a deterministic refinement of
Go's unordered maps: all grouping and lookup logic below depends only on
the key-to-value function); `float64` is embedded as `GoFloat` (exact
rationals plus infinities and NaN); fallible Go code returning
`(any, error)` is embedded in `Except SQLError`.
-/

set_option maxRecDepth 8192

namespace GenQL

/-- sentinel.go: `SQLError` is a string; `Extend` appends `. message`. -/
abbrev SQLError := String

def INVALID_CAST : SQLError := "invalid cast"

def UNDEFINED_OPERATOR : SQLError := "undefined operator"

def INVALID_FUNCTION : SQLError := "invalid function name"

def INVALID_TYPE : SQLError := "invalid type"

def UNSUPPORTED_CASE : SQLError := "unsupported operation"

def KEY_NOT_FOUND : SQLError := "key not found"

def EXPECTATION_FAILED : SQLError := "expectation failed"

/-- sentinel.go: `func (sqlError SQLError) Extend(message string) SQLError`. -/
def SQLError.Extend (e : SQLError) (message : String) : SQLError :=
  e ++ (". ") ++ message

/-- A Go runtime panic surfaced through `recover` (exec and Sort convert
panics to errors; unrecovered panics abort).  The payload names the panic. -/
def GO_PANIC (message : String) : SQLError := ("go panic: ") ++ message

/-- Go `float64`, embedded as exact rationals plus the IEEE special values.
Finite arithmetic is modelled exactly (real float64 rounds; no claim in this
development depends on a rounded finite result). -/
inductive GoFloat where
  | finite (q : ℚ)
  | inf (neg : Bool)
  | nan
deriving DecidableEq, Repr

/-- IEEE equality: NaN is unequal to everything, including itself. -/
def GoFloat.feq : GoFloat → GoFloat → Bool
  | .finite a, .finite b => a == b
  | .inf a, .inf b => a == b
  | _, _ => false

/-- IEEE strict greater-than: any comparison involving NaN is false. -/
def GoFloat.fgt : GoFloat → GoFloat → Bool
  | .finite a, .finite b => a > b
  | .inf neg, .finite _ => !neg
  | .finite _, .inf neg => neg
  | .inf a, .inf b => !a && b
  | _, _ => false

/-- Go float64 division (`rs := *leftValue / *rightValue` in `BinaryExpr`):
division by zero yields an infinity of the appropriate sign, 0/0 yields NaN,
and no error or panic is raised.  Finite nonzero division is modelled
exactly. -/
def GoFloat.fdiv : GoFloat → GoFloat → GoFloat
  | .finite a, .finite b =>
      if b = 0 then
        if a = 0 then .nan else .inf (decide (a < 0))
      else .finite (a / b)
  | .finite a, .inf _ => .finite (0 * a)
  | .inf neg, .finite b => .inf (neg ≠ decide (b < 0))
  | _, _ => .nan

/-- Textual form of a float64 under `fmt.Sprintf`'s default verb.  Integral
values print as their integer digits, matching Go; the non-integral and
special cases carry Go's spellings (`+Inf`, `-Inf`, `NaN`).  Non-integral
finite text is a modelled stand-in for Go's shortest-decimal form; no claim
depends on it. -/
def GoFloat.text : GoFloat → String
  | .finite q => if q.den = 1 then toString q.num else toString q
  | .inf neg => if neg then "-Inf" else "+Inf"
  | .nan => "NaN"

/-- The dynamic value currency (`any` in the Go source).  `thunk` embeds a
`func() (any, error)` (the `CteEvaluation` type-alias form included) by the outcome of
calling it. -/
inductive Value where
  | null
  | bool (b : Bool)
  | num (f : GoFloat)
  | str (s : String)
  | arr (elems : List Value)
  | obj (fields : List (String × Value))
  | thunk (result : Except SQLError Value)
deriving Repr

/-- Go `map[string]any`, embedded as an association list (first binding of a
key wins; the list order is a deterministic refinement of Go's unordered
iteration). -/
abbrev GoMap := List (String × Value)

/-- Key lookup in an embedded Go map (`data[key]` with the `ok` flag). -/
def mapGet (m : GoMap) (key : String) : Option Value :=
  (m.find? (fun p => p.1 == key)).map (fun p => p.2)

/-- Go map assignment `m[key] = v`: replaces the binding in place when the
key is present, otherwise adds it. -/
def mapSet (m : GoMap) (key : String) (v : Value) : GoMap :=
  match m with
  | [] => [(key, v)]
  | p :: rest => if p.1 == key then (key, v) :: rest else p :: mapSet rest key v

/-- Go `delete(m, key)`. -/
def mapDelete (m : GoMap) (key : String) : GoMap :=
  m.filter (fun p => !(p.1 == key))

/-- The single-quote character, `_SQ` in the selector lexer. -/
def quoteChar : Char := Char.ofNat 39

/-- Left brace, `_LCUR`. -/
def lBrace : Char := Char.ofNat 123

/-- Right brace, `_RCUR`. -/
def rBrace : Char := Char.ofNat 125

/-- Byte/code-point comparison of two strings (`strings.Compare`); UTF-8
byte order coincides with scalar-value order. -/
def charListCompare : List Char → List Char → Int
  | [], [] => 0
  | [], _ :: _ => -1
  | _ :: _, [] => 1
  | a :: as_, b :: bs =>
    if a < b then -1 else if b < a then 1 else charListCompare as_ bs

def strCompare (a b : String) : Int :=
  charListCompare a.data b.data

/-- Insertion of a field into a key-sorted list, for `fmt`'s map printing
(Go's `fmt` prints map keys in sorted order). -/
def insertField (p : String × Value) : List (String × Value) → List (String × Value)
  | [] => [p]
  | q :: rest => if p.1 ≤ q.1 then p :: q :: rest else q :: insertField p rest

def sortFields : List (String × Value) → List (String × Value)
  | [] => []
  | p :: rest => insertField p (sortFields rest)

theorem sizeOf_insertField (p : String × Value) (l : List (String × Value)) :
    sizeOf (insertField p l) = 1 + sizeOf p + sizeOf l := by
  induction l with
  | nil => simp [insertField]
  | cons q rest ih =>
    by_cases h : p.1 ≤ q.1 <;> simp [insertField, h, ih] <;> omega

theorem sizeOf_sortFields (l : List (String × Value)) :
    sizeOf (sortFields l) = sizeOf l := by
  induction l with
  | nil => rfl
  | cons p rest ih => simp [sortFields, sizeOf_insertField, ih]

mutual

/-- `fmt.Sprintf` with the default verb on an embedded value: `nil` prints
`<nil>`, booleans `true`/`false`, numbers their float64 text, strings
verbatim, slices space-separated in brackets, maps `map[...]` with keys
sorted.  A `func` value prints its address in Go; here a fixed placeholder
stands in (no claim depends on it). -/
def sprintV : Value → String
  | .null => "<nil>"
  | .bool b => if b then "true" else "false"
  | .num f => f.text
  | .str s => s
  | .arr xs => "[" ++ sprintList xs ++ "]"
  | .obj fs => ("map[") ++ sprintFields (sortFields fs) ++ "]"
  | .thunk _ => "0x0"
termination_by v => sizeOf v
decreasing_by
  all_goals simp_wf
  all_goals try omega
  all_goals simp [sizeOf_sortFields]
  all_goals omega

def sprintList : List Value → String
  | [] => ""
  | [x] => sprintV x
  | x :: y :: rest => sprintV x ++ (" ") ++ sprintList (y :: rest)
termination_by xs => sizeOf xs
decreasing_by all_goals simp_wf <;> omega

def sprintFields : List (String × Value) → String
  | [] => ""
  | [(k, v)] => k ++ (":") ++ sprintV v
  | (k, v) :: q :: rest => k ++ (":") ++ sprintV v ++ (" ") ++ sprintFields (q :: rest)
termination_by fs => sizeOf fs
decreasing_by all_goals simp_wf <;> omega

end

/-- Go's `\w` character class (ASCII word characters). -/
def isWordChar (c : Char) : Bool :=
  c.isAlphanum || c == '_'

theorem lenDropWhileLe (p : Char → Bool) (l : List Char) :
    (l.dropWhile p).length ≤ l.length := by
  induction l with
  | nil => simp [List.dropWhile]
  | cons c rest ih =>
    by_cases h : p c
    · simp only [List.dropWhile, h]
      exact Nat.le_succ_of_le ih
    · simp [List.dropWhile, h]

/-- Weakens the length bound carried by a scanned token's suffix. -/
def tokWeaken {a b : Nat} (hab : a ≤ b) :
    Option (String × { r : List Char // r.length < a }) →
    Option (String × { r : List Char // r.length < b }) :=
  fun o => o.map (fun p => (p.1, ⟨p.2.1, lt_of_lt_of_le p.2.2 hab⟩))

/-- One leftmost match of `_FULLPATTERN` — quoted key `('[^']*'+)`, the
backward token `<-`, `*`, a word run `[\w]+`, a bracket group or a brace
group — together with the unconsumed suffix; `none` when no alternative
matches anywhere in the input.  The suffix carries its length bound so that
the scanning loop terminates structurally. -/
def nextToken : (cs : List Char) → Option (String × { r : List Char // r.length < cs.length })
  | [] => none
  | c :: rest =>
    if c == quoteChar then
      if ((rest.dropWhile (fun d => !(d == quoteChar))).takeWhile (fun d => d == quoteChar)).isEmpty then
        tokWeaken (Nat.le_succ rest.length) (nextToken rest)
      else
        some (String.mk (c :: (rest.takeWhile (fun d => !(d == quoteChar)) ++
            (rest.dropWhile (fun d => !(d == quoteChar))).takeWhile (fun d => d == quoteChar))),
          ⟨(rest.dropWhile (fun d => !(d == quoteChar))).dropWhile (fun d => d == quoteChar), by
            have h1 := lenDropWhileLe (fun d => !(d == quoteChar)) rest
            have h2 := lenDropWhileLe (fun d => d == quoteChar)
              (rest.dropWhile (fun d => !(d == quoteChar)))
            simp only [List.length_cons]
            omega⟩)
    else if c == '<' then
      if rest.headD (' ') == '-' then
        some (("<-"), ⟨rest.tail, by
          have := List.length_tail rest
          simp only [List.length_cons]
          omega⟩)
      else tokWeaken (Nat.le_succ rest.length) (nextToken rest)
    else if c == '*' then
      some (("*"), ⟨rest, by simp only [List.length_cons]; omega⟩)
    else if c == '[' then
      if (rest.dropWhile (fun d => !(d == '[') && !(d == ']'))).headD (' ') == ']' then
        some (String.mk ('[' :: (rest.takeWhile (fun d => !(d == '[') && !(d == ']')) ++ [']'])),
          ⟨(rest.dropWhile (fun d => !(d == '[') && !(d == ']'))).tail, by
            have h1 := lenDropWhileLe (fun d => !(d == '[') && !(d == ']')) rest
            have h2 := List.length_tail (rest.dropWhile (fun d => !(d == '[') && !(d == ']')))
            simp only [List.length_cons]
            omega⟩)
      else tokWeaken (Nat.le_succ rest.length) (nextToken rest)
    else if c == lBrace then
      if (rest.dropWhile (fun d => !(d == lBrace) && !(d == rBrace))).headD (' ') == rBrace then
        some (String.mk (lBrace :: (rest.takeWhile (fun d => !(d == lBrace) && !(d == rBrace)) ++ [rBrace])),
          ⟨(rest.dropWhile (fun d => !(d == lBrace) && !(d == rBrace))).tail, by
            have h1 := lenDropWhileLe (fun d => !(d == lBrace) && !(d == rBrace)) rest
            have h2 := List.length_tail (rest.dropWhile (fun d => !(d == lBrace) && !(d == rBrace)))
            simp only [List.length_cons]
            omega⟩)
      else tokWeaken (Nat.le_succ rest.length) (nextToken rest)
    else if isWordChar c then
      some (String.mk (c :: rest.takeWhile isWordChar),
        ⟨rest.dropWhile isWordChar, by
          have h1 := lenDropWhileLe isWordChar rest
          simp only [List.length_cons]
          omega⟩)
    else
      tokWeaken (Nat.le_succ rest.length) (nextToken rest)

/-- The scanning loop behind `fullPattern.FindAllString`, driven by a
fuel counter so that concrete scans compute by `rfl`; `nextToken` consumes
at least one character per match, so any fuel above the input length is
never exhausted (`scanTokensAux_congr`). -/
def scanTokensAux : Nat → List Char → List String
  | 0, _ => []
  | fuel + 1, cs =>
    match nextToken cs with
    | none => []
    | some (t, ⟨rest, _⟩) => t :: scanTokensAux fuel rest

theorem scanTokensAux_congr (fuel fuel' : Nat) (cs : List Char)
    (h : cs.length < fuel) (h' : cs.length < fuel') :
    scanTokensAux fuel cs = scanTokensAux fuel' cs := by
  induction fuel generalizing fuel' cs with
  | zero => omega
  | succ f ih =>
    match fuel', h' with
    | f' + 1, h' =>
      simp only [scanTokensAux]
      cases hnt : nextToken cs with
      | none => rfl
      | some p =>
        obtain ⟨t, rest, hlt⟩ := p
        simp only []
        rw [ih f' rest (by omega) (by omega)]

/-- `fullPattern.FindAllString`: the successive non-overlapping leftmost
matches of the selector token pattern. -/
def scanTokens (cs : List Char) : List String :=
  scanTokensAux (cs.length + 1) cs

/-- The one-step unfolding of `scanTokens`. -/
theorem scanTokens_step (cs : List Char) :
    scanTokens cs = match nextToken cs with
      | none => []
      | some (t, ⟨rest, _⟩) => t :: scanTokens rest := by
  unfold scanTokens
  conv_lhs => rw [scanTokensAux]
  cases hnt : nextToken cs with
  | none => rfl
  | some p =>
    obtain ⟨t, rest, hlt⟩ := p
    simp only []
    rw [scanTokensAux_congr cs.length (rest.length + 1) rest (by omega) (by omega)]

/-- `strings.TrimLeft` with a single-character cut set. -/
def trimLeftChar (c : Char) (cs : List Char) : List Char :=
  cs.dropWhile (fun d => d == c)

/-- `strings.TrimRight` with a single-character cut set. -/
def trimRightChar (c : Char) (cs : List Char) : List Char :=
  (cs.reverse.dropWhile (fun d => d == c)).reverse

/-- `strings.Split` on a single-character separator. -/
def splitOnChar (c : Char) : List Char → List (List Char)
  | [] => [[]]
  | d :: rest =>
    match splitOnChar c rest with
    | [] => [[d]]
    | g :: gs => if d == c then [] :: g :: gs else (d :: g) :: gs

/-- The index / range selector of the bracket sub-language
(`IndexSelector` with its `INDEX`/`RANGE` tag; `each` is index `-1`,
`begin`/`end` are range bound `-1`). -/
inductive IdxSel where
  | idx (n : Int)
  | rng (a b : Int)
deriving DecidableEq, Repr

/-- Digit-string parsing (`strconv.Atoi` on an unsigned token): `none`
unless the text is a non-empty run of ASCII digits. -/
def digitsToNat? (cs : List Char) : Option Nat :=
  if cs.isEmpty then none
  else if cs.all Char.isDigit then
    some (cs.foldl (fun acc c => acc * 10 + (c.toNat - 48)) 0)
  else none

/-- `ReadIndex`: `strconv.Atoi` on a `\w+` token, rejecting negatives. -/
def ReadIndex (s : String) : Except SQLError Int :=
  match digitsToNat? s.data with
  | none => .error (("strconv.Atoi: parsing ") ++ s ++ (": invalid syntax"))
  | some n =>
    if (n : Int) < 0 then
      .error (EXPECTATION_FAILED.Extend (("failed to read index. invalid index ") ++ toString n))
    else .ok (n : Int)

/-- `ReadRange`: trim spaces and parentheses, split on the colon, map
`begin` and `end` to `-1` and parse the other bounds as indices. -/
def ReadRange (s : String) : Except SQLError IdxSel := do
  let str := (s.data.dropWhile (fun d => d == ' ')).reverse.dropWhile (fun d => d == ' ') |>.reverse
  let str := trimRightChar ')' (trimLeftChar '(' str)
  match splitOnChar ':' str with
  | [lo, hi] => do
    let a ← (if String.mk lo == ("begin") then pure (-1 : Int) else ReadIndex (String.mk lo))
    let b ← (if String.mk hi == ("end") then pure (-1 : Int) else ReadIndex (String.mk hi))
    pure (IdxSel.rng a b)
  | _ => .error (EXPECTATION_FAILED.Extend (("failed to read range. invalid range ") ++ s))

/-- One leftmost match of `_ARRAYPATTERN` (`\([^\)]*\)+|\w+`) with its
bounded suffix. -/
def nextArrayToken : (cs : List Char) → Option (String × { r : List Char // r.length < cs.length })
  | [] => none
  | c :: rest =>
    if c == '(' then
      match h : rest.dropWhile (fun d => !(d == ')')) with
      | [] => tokWeaken (Nat.le_succ rest.length) (nextArrayToken rest)
      | d :: rest2 =>
        some (String.mk ('(' :: (rest.takeWhile (fun d => !(d == ')')) ++ (d :: rest2.takeWhile (fun e => e == ')')))),
          ⟨rest2.dropWhile (fun e => e == ')'), by
            have h1 := lenDropWhileLe (fun d => !(d == ')')) rest
            have h2 : (rest.dropWhile (fun d => !(d == ')'))).length = rest2.length + 1 := by
              rw [h]; simp
            have h3 := lenDropWhileLe (fun e => e == ')') rest2
            simp only [List.length_cons]
            omega⟩)
    else if isWordChar c then
      some (String.mk (c :: rest.takeWhile isWordChar),
        ⟨rest.dropWhile isWordChar, by
          have h1 := lenDropWhileLe isWordChar rest
          simp only [List.length_cons]
          omega⟩)
    else
      tokWeaken (Nat.le_succ rest.length) (nextArrayToken rest)

/-- The fuel-driven scanning loop behind `arrayPattern.FindAllString`
(see `scanTokensAux` for the fuel discipline). -/
def scanArrayTokensAux : Nat → List Char → List String
  | 0, _ => []
  | fuel + 1, cs =>
    match nextArrayToken cs with
    | none => []
    | some (t, ⟨rest, _⟩) => t :: scanArrayTokensAux fuel rest

theorem scanArrayTokensAux_congr (fuel fuel' : Nat) (cs : List Char)
    (h : cs.length < fuel) (h' : cs.length < fuel') :
    scanArrayTokensAux fuel cs = scanArrayTokensAux fuel' cs := by
  induction fuel generalizing fuel' cs with
  | zero => omega
  | succ f ih =>
    match fuel', h' with
    | f' + 1, h' =>
      simp only [scanArrayTokensAux]
      cases hnt : nextArrayToken cs with
      | none => rfl
      | some p =>
        obtain ⟨t, rest, hlt⟩ := p
        simp only []
        rw [ih f' rest (by omega) (by omega)]

/-- `arrayPattern.FindAllString`. -/
def scanArrayTokens (cs : List Char) : List String :=
  scanArrayTokensAux (cs.length + 1) cs

/-- `ParseArray`: strip the brackets, detect the `keep=>` prefix, lex the
body with `arrayPattern` and translate each token (`(` starts a range,
`each` is the iterate index, anything else parses as an index).  The flag
reports whether the result is a `KeepDimension`. -/
def ParseArray (tok : String) : Except SQLError (List IdxSel × Bool) := do
  let s1 := trimRightChar ']' (trimLeftChar '[' tok.data)
  let keep := ("keep=>").data.isPrefixOf s1
  let s2 := if keep then s1.drop 6 else s1
  let sels ← (scanArrayTokens s2).mapM (fun t =>
    match t.data with
    | c :: _ =>
      if c == '(' then ReadRange t
      else if t == ("each") then pure (IdxSel.idx (-1))
      else do pure (IdxSel.idx (← ReadIndex t))
    | [] => do pure (IdxSel.idx (← ReadIndex t)))
  pure (sels, keep)

/-- One unit of `_PIPEPATTERN`'s repetition: a word character, a quoted
run `'[^']*'`, or a pipe followed by a word run. -/
def pipeUnit : (cs : List Char) → Option (List Char × { r : List Char // r.length < cs.length })
  | [] => none
  | c :: rest =>
    if isWordChar c then
      some ([c], ⟨rest, by simp only [List.length_cons]; omega⟩)
    else if c == quoteChar then
      match h : rest.dropWhile (fun d => !(d == quoteChar)) with
      | [] => none
      | d :: rest2 =>
        some (c :: (rest.takeWhile (fun d => !(d == quoteChar)) ++ [d]),
          ⟨rest2, by
            have h1 := lenDropWhileLe (fun d => !(d == quoteChar)) rest
            have h2 : (rest.dropWhile (fun d => !(d == quoteChar))).length = rest2.length + 1 := by
              rw [h]; simp
            simp only [List.length_cons]
            omega⟩)
    else if c == '|' then
      if (rest.takeWhile isWordChar).isEmpty then none
      else
        some (c :: rest.takeWhile isWordChar,
          ⟨rest.dropWhile isWordChar, by
            have h1 := lenDropWhileLe isWordChar rest
            simp only [List.length_cons]
            omega⟩)
    else none

/-- The maximal run of pipe units from the current position (the greedy
`(...)+` of `_PIPEPATTERN`). -/
def pipeRun (cs : List Char) : List Char × { r : List Char // r.length ≤ cs.length } :=
  match h : pipeUnit cs with
  | none => ([], ⟨cs, Nat.le_refl _⟩)
  | some (u, ⟨rest, hlt⟩) =>
    match pipeRun rest with
    | (t, ⟨r, hr⟩) => (u ++ t, ⟨r, Nat.le_trans hr (Nat.le_of_lt hlt)⟩)
termination_by cs.length

/-- `pipePattern.FindAllString`. -/
def scanPipeTokens (cs : List Char) : List String :=
  match h : pipeUnit cs with
  | none =>
    match cs with
    | [] => []
    | _ :: rest => scanPipeTokens rest
  | some (u, ⟨rest, hlt⟩) =>
    match pipeRun rest with
    | (t, ⟨r, hr⟩) => String.mk (u ++ t) :: scanPipeTokens r
termination_by cs.length
decreasing_by
  · simp only [List.length_cons]; omega
  · omega

/-- `ParsePipe`: lex the brace group with `pipePattern`, split each token
on the pipe, trim quotes from the key, and keep at most one type tag. -/
def ParsePipe (tok : String) : Except SQLError (List (String × String)) :=
  (scanPipeTokens tok.data).mapM (fun t =>
    match splitOnChar '|' t.data with
    | [key] =>
      .ok (String.mk (trimRightChar quoteChar (trimLeftChar quoteChar key)), ("" : String))
    | [key, ty] =>
      .ok (String.mk (trimRightChar quoteChar (trimLeftChar quoteChar key)), String.mk ty)
    | _ => .error (EXPECTATION_FAILED.Extend (("failed to parse pipe. invalid pipe ") ++ t)))

/-- A parsed selector item: `KeySelector`, `TopLevelFunctionSelector`,
`[]*IndexSelector`, `KeepDimension` or `[]*PipeSelector`. -/
inductive Sel where
  | key (s : String)
  | topfn (s : String)
  | idxs (dims : List IdxSel)
  | keep (dims : List IdxSel)
  | pipes (ps : List (String × String))
deriving Repr

/-- `strings.SplitN(selector, "=>", 2)`: the text before and after the
first arrow, when one occurs. -/
def splitN2Arrow : List Char → Option (List Char × List Char)
  | [] => none
  | c :: rest =>
    if c == '=' then
      match rest with
      | d :: rest2 =>
        if d == '>' then some ([], rest2)
        else (splitN2Arrow rest).map (fun p => (c :: p.1, p.2))
      | [] => none
    else (splitN2Arrow rest).map (fun p => (c :: p.1, p.2))

/-- Translation of one lexed token into a selector item: bracket groups
parse as index selections, brace groups as pipes, anything else is a key
with surrounding quotes trimmed. -/
def selOfToken (tok : String) : Except SQLError Sel :=
  match tok.data with
  | c :: _ =>
    if c == '[' then do
      let (dims, keep) ← ParseArray tok
      pure (if keep then Sel.keep dims else Sel.idxs dims)
    else if c == lBrace then do
      pure (Sel.pipes (← ParsePipe tok))
    else
      pure (Sel.key (String.mk (trimRightChar quoteChar (trimLeftChar quoteChar tok.data))))
  | [] => pure (Sel.key tok)

/-- `ParseSelector`: split off a top-level function before the first `=>`,
then lex and translate the remaining tokens. -/
def ParseSelector (selector : String) : Except SQLError (List Sel) :=
  match splitN2Arrow selector.data with
  | some (pre, post) => do
    pure (Sel.topfn (String.mk pre) :: (← (scanTokens post).mapM selOfToken))
  | none => (scanTokens selector.data).mapM selOfToken

/-- Prepend a character to the first group of a split. -/
def consPrepend (c : Char) : List (List Char) → List (List Char)
  | [] => [[c]]
  | g :: gs => (c :: g) :: gs

/-- `strings.Split(selector, "::")`: the pipeline steps of a selector
(non-overlapping separators, left to right). -/
def splitSelectorSteps : List Char → List (List Char)
  | [] => [[]]
  | [c] => consPrepend c [[]]
  | c :: d :: rest2 =>
    if c == ':' && d == ':' then [] :: splitSelectorSteps rest2
    else consPrepend c (splitSelectorSteps (d :: rest2))

/-- `SelectObject`: key lookup returning Go's `nil` (here `Value.null`)
when the key is absent. -/
def SelectObject (data : GoMap) (key : String) : Value :=
  match mapGet data key with
  | some v => v
  | none => .null

mutual

/-- `SelectDimension`: descend the listed dimensions.  A range slices the
array and continues on the slice; index `-1` (`each`) maps the remaining
dimensions over the elements; any other index descends into that element.
Go's type assertion `data.([]any)` and slice/index bounds failures panic;
the panics are surfaced as `GO_PANIC` errors. -/
def SelectDimension (data : Value) (dims : List IdxSel) : Except SQLError Value :=
  match dims with
  | [] => .ok data
  | d :: rest =>
    match d with
    | .rng a b =>
      match data with
      | .arr xs =>
        let begin_ : Int := if a == -1 then 0 else a
        let end_ : Int := if b == -1 then (xs.length : Int) else b
        if 0 ≤ begin_ ∧ begin_ ≤ end_ ∧ end_ ≤ (xs.length : Int) then
          SelectDimension (.arr ((xs.drop begin_.toNat).take (end_ - begin_).toNat)) rest
        else .error (GO_PANIC ("slice bounds out of range"))
      | _ => .error (GO_PANIC ("interface conversion: interface is not a slice"))
    | .idx n =>
      if n == -1 then
        match data with
        | .arr xs =>
          match SelectDimensionEach xs rest with
          | .error e => .error e
          | .ok elems => .ok (.arr elems)
        | _ => .error (GO_PANIC ("interface conversion: interface is not a slice"))
      else
        match data with
        | .arr xs =>
          if n < 0 then .error (GO_PANIC ("index out of range"))
          else
            match xs.get? n.toNat with
            | some x => SelectDimension x rest
            | none => .error (GO_PANIC ("index out of range"))
        | _ => .error (GO_PANIC ("interface conversion: interface is not a slice"))
termination_by (dims.length, 1, 0)

/-- The `each` loop of `SelectDimension`: apply the remaining dimensions
to every element, collecting results (errors abort). -/
def SelectDimensionEach (xs : List Value) (rest : List IdxSel) : Except SQLError (List Value) :=
  match xs with
  | [] => .ok []
  | x :: more =>
    match SelectDimension x rest with
    | .error e => .error e
    | .ok rs =>
      match SelectDimensionEach more rest with
      | .error e => .error e
      | .ok rss => .ok (rs :: rss)
termination_by (rest.length, 2, xs.length)

end

mutual

/-- `Unwind`: flatten `depth` levels; depth `0` returns the data
unchanged. -/
def Unwind (data : List Value) (depth : Int) : List Value :=
  if depth = 0 then data else UnwindLoop data (depth - 1)
termination_by (sizeOf data, 1)
decreasing_by
  apply Prod.Lex.right; omega

/-- The element loop of `Unwind`: nested arrays are spliced after being
unwound one level shallower; other items are kept. -/
def UnwindLoop (data : List Value) (depth : Int) : List Value :=
  match data with
  | [] => []
  | item :: rest =>
    match item with
    | .arr a => Unwind a depth ++ UnwindLoop rest depth
    | v => v :: UnwindLoop rest depth
termination_by (sizeOf data, 0)
decreasing_by
  all_goals apply Prod.Lex.left
  all_goals simp
  all_goals omega

end

/-- `SelectMany`: select the dimensions, then — unless the result is not
an array — flatten by `len(dimensions) - 1` levels (the default "unwind"
policy). -/
def SelectMany (data : List Value) (dims : List IdxSel) : Except SQLError Value :=
  match SelectDimension (.arr data) dims with
  | .error e => .error e
  | .ok rs =>
    match rs with
    | .arr xs => .ok (.arr (Unwind xs ((dims.length : Int) - 1)))
    | v => .ok v

/-- `MixArray`: flatten an array fully. -/
def MixArray : List Value → List Value
  | [] => []
  | item :: rest =>
    match item with
    | .arr a => MixArray a ++ MixArray rest
    | v => v :: MixArray rest
termination_by data => sizeOf data
decreasing_by all_goals simp <;> omega

/-- `MixObject`: fuse nested objects, concatenating keys with `_`. -/
def MixObject : GoMap → Except SQLError GoMap
  | [] => .ok []
  | (k, item) :: rest =>
    match MixObject rest with
    | .error e => .error e
    | .ok restRs =>
      match item with
      | .obj inner =>
        match MixObject inner with
        | .error e => .error e
        | .ok rs => .ok (rs.map (fun p => (k ++ ("_") ++ p.1, p.2)) ++ restRs)
      | v => .ok ((k, v) :: restRs)
termination_by m => sizeOf m
decreasing_by all_goals simp <;> omega

/-- Top-level function `mix`. -/
def Mix (v : Value) : Except SQLError Value :=
  match v with
  | .arr xs => .ok (.arr (MixArray xs))
  | .obj m =>
    match MixObject m with
    | .error e => .error e
    | .ok rs => .ok (.obj rs)
  | _ => .error UNSUPPORTED_CASE

/-- The dedup loop of `Distinct`.  Keeps the first occurrence of each
textual identity.  (The source keys occurrences by the base64 SHA-256 of
the `fmt` text; the model keys them by the text itself, an injective
refinement of the digest.) -/
def distinctLoop : List Value → List String → List Value
  | [], _ => []
  | x :: rest, seen =>
    if seen.contains (sprintV x) then distinctLoop rest seen
    else x :: distinctLoop rest (sprintV x :: seen)

/-- Top-level function `distinct`. -/
def Distinct (v : Value) : Except SQLError Value :=
  match v with
  | .arr xs => .ok (.arr (distinctLoop xs []))
  | _ => .error UNSUPPORTED_CASE

/-- The top-level-function registry after `init` (`mix` and `distinct`). -/
def topLevelFunctions (name : String) : Option (Value → Except SQLError Value) :=
  if name == ("mix") then some Mix
  else if name == ("distinct") then some Distinct
  else none

/-- `strconv.ParseFloat` on plain decimal text (optional sign, digits,
optional fraction).  Exponent and special-value spellings are outside the
modelled fragment and return `none`; no claim depends on them. -/
def parseDecimal (cs : List Char) : Option ℚ :=
  match splitOnChar '.' cs with
  | [intPart] =>
    (digitsToNat? intPart).map (fun n => (n : ℚ))
  | [intPart, fracPart] =>
    match digitsToNat? intPart, digitsToNat? fracPart with
    | some n, some f => some ((n : ℚ) + (f : ℚ) / ((10 : ℚ) ^ fracPart.length))
    | _, _ => none
  | _ => none

def parseGoFloat (s : String) : Option GoFloat :=
  match s.data with
  | '-' :: rest => (parseDecimal rest).map (fun q => .finite (-q))
  | '+' :: rest => (parseDecimal rest).map (fun q => .finite q)
  | cs => (parseDecimal cs).map (fun q => .finite q)

/-- Stand-in for `fmt.Sprintf("%f", v)` on the non-integral branch of the
pipe `string` conversion; no claim depends on its exact text. -/
def GoFloat.textFixedModelled (f : GoFloat) : String :=
  f.text

/-- The pipe-selector loop of `Reader` on an object: force a thunk stored
at the key (mutating the row), then copy/convert the named keys into a
fresh object. -/
def pipeLoop (data : GoMap) (ps : List (String × String)) (copyM : GoMap) :
    Except SQLError GoMap :=
  match ps with
  | [] => .ok copyM
  | (k, ty) :: rest =>
    let forced : Except SQLError GoMap :=
      match mapGet data k with
      | some (.thunk r) =>
        match r with
        | .error e => .error e
        | .ok rs => .ok (mapSet data k rs)
      | _ => .ok data
    match forced with
    | .error e => .error e
    | .ok data2 =>
      let value := SelectObject data2 k
      match ty with
      | "" => pipeLoop data2 rest (mapSet copyM k value)
      | "string" =>
        match value with
        | .num (.finite q) =>
          if q.den = 1 then pipeLoop data2 rest (mapSet copyM k (.str (toString q.num)))
          else pipeLoop data2 rest (mapSet copyM k (.str (GoFloat.textFixedModelled (.finite q))))
        | .num f => pipeLoop data2 rest (mapSet copyM k (.str (GoFloat.textFixedModelled f)))
        | v => pipeLoop data2 rest (mapSet copyM k (.str (sprintV v)))
      | "number" =>
        match value with
        | .str s =>
          match parseGoFloat s with
          | some f => pipeLoop data2 rest (mapSet copyM k (.num f))
          | none => .error (("strconv.ParseFloat: parsing ") ++ s ++ (": invalid syntax"))
        | _ => .error (INVALID_TYPE.Extend (("failed to execute pipe operation. ") ++ k ++ (" is of the wrong type")))
      | _ => .error UNSUPPORTED_CASE

mutual

/-- `Reader`: evaluate a parsed selector against a value.  Empty selector
lists and `nil` data return immediately; key selectors look into objects,
map over arrays and force thunks; index selections go through `SelectMany`
(default policy) or `SelectDimension` (`keep=>`); pipe selectors reshape
objects; anything else fails. -/
def Reader (data : Value) (sels : List Sel) : Except SQLError Value :=
  match sels with
  | [] => .ok data
  | sel :: rest =>
    match sel with
    | .key s =>
      match data with
      | .null => .ok .null
      | .obj m => Reader (SelectObject m s) rest
      | .arr xs =>
        match ReaderList xs (Sel.key s :: rest) with
        | .error e => .error e
        | .ok slice => .ok (.arr slice)
      | .thunk r =>
        match r with
        | .error e => .error e
        | .ok v => Reader v (Sel.key s :: rest)
      | _ => .error (EXPECTATION_FAILED.Extend ("failed to execute read operation. key selectors are not valid on this type"))
    | .idxs dims =>
      match data with
      | .null => .ok .null
      | .arr xs =>
        match SelectMany xs dims with
        | .error e => .error e
        | .ok rs => Reader rs rest
      | .thunk r =>
        match r with
        | .error e => .error e
        | .ok v => Reader v (Sel.idxs dims :: rest)
      | _ => .error (EXPECTATION_FAILED.Extend ("failed to execute read operation. index selectors are not valid on this type"))
    | .keep dims =>
      match data with
      | .null => .ok .null
      | .arr xs =>
        match SelectDimension (.arr xs) dims with
        | .error e => .error e
        | .ok rs => Reader rs rest
      | .thunk r =>
        match r with
        | .error e => .error e
        | .ok v => Reader v (Sel.keep dims :: rest)
      | _ => .error (EXPECTATION_FAILED.Extend ("failed to execute read operation. dimension selectors are not valid on this type"))
    | .pipes ps =>
      match data with
      | .null => .ok .null
      | .obj m =>
        match pipeLoop m ps [] with
        | .error e => .error e
        | .ok copyM => Reader (.obj copyM) rest
      | .arr xs =>
        match ReaderList xs (Sel.pipes ps :: rest) with
        | .error e => .error e
        | .ok slice => .ok (.arr slice)
      | .thunk r =>
        match r with
        | .error e => .error e
        | .ok v => Reader v (Sel.pipes ps :: rest)
      | _ => .error (EXPECTATION_FAILED.Extend ("failed to execute read operation. pipe selectors are not valid on this type"))
    | .topfn _ =>
      match data with
      | .null => .ok .null
      | _ => .error UNSUPPORTED_CASE
termination_by (sels.length, sizeOf data, 0)

/-- The array map inside `Reader`: apply the same selectors to every
element, preserving shape. -/
def ReaderList (xs : List Value) (sels : List Sel) : Except SQLError (List Value) :=
  match xs with
  | [] => .ok []
  | x :: more =>
    match Reader x sels with
    | .error e => .error e
    | .ok rs =>
      match ReaderList more sels with
      | .error e => .error e
      | .ok rss => .ok (rs :: rss)
termination_by (sels.length, sizeOf xs, 1)

end

theorem Reader_nil (data : Value) : Reader data [] = .ok data := by
  rw [Reader]

theorem Reader_key_null (s : String) (rest : List Sel) :
    Reader .null (.key s :: rest) = .ok .null := by
  rw [Reader]

theorem Reader_key_obj (m : GoMap) (s : String) (rest : List Sel) :
    Reader (.obj m) (.key s :: rest) = Reader (SelectObject m s) rest := by
  rw [Reader]

theorem Reader_key_arr (xs : List Value) (s : String) (rest : List Sel) :
    Reader (.arr xs) (.key s :: rest) =
      match ReaderList xs (.key s :: rest) with
      | .error e => .error e
      | .ok slice => .ok (.arr slice) := by
  rw [Reader]

theorem Reader_key_thunk (r : Except SQLError Value) (s : String) (rest : List Sel) :
    Reader (.thunk r) (.key s :: rest) =
      match r with
      | .error e => .error e
      | .ok v => Reader v (.key s :: rest) := by
  rw [Reader.eq_def]

theorem Reader_idxs_arr (xs : List Value) (dims : List IdxSel) (rest : List Sel) :
    Reader (.arr xs) (.idxs dims :: rest) =
      match SelectMany xs dims with
      | .error e => .error e
      | .ok rs => Reader rs rest := by
  rw [Reader]

theorem Reader_keep_arr (xs : List Value) (dims : List IdxSel) (rest : List Sel) :
    Reader (.arr xs) (.keep dims :: rest) =
      match SelectDimension (.arr xs) dims with
      | .error e => .error e
      | .ok rs => Reader rs rest := by
  rw [Reader]

theorem ReaderList_nil (sels : List Sel) : ReaderList [] sels = .ok [] := by
  rw [ReaderList]

theorem ReaderList_cons (x : Value) (more : List Value) (sels : List Sel) :
    ReaderList (x :: more) sels =
      match Reader x sels with
      | .error e => .error e
      | .ok rs =>
        match ReaderList more sels with
        | .error e => .error e
        | .ok rss => .ok (rs :: rss) := by
  rw [ReaderList]

/-- `ReaderExecutor`: peel a leading top-level-function selector; the
steps run first, then the named function applies to their result. -/
def ReaderExecutor (data : Value) (sels : List Sel) : Except SQLError Value :=
  match sels with
  | .topfn f :: rest =>
    match Reader data rest with
    | .error e => .error e
    | .ok rs =>
      match topLevelFunctions f with
      | some fn => fn rs
      | none => .error (INVALID_FUNCTION.Extend (("failed to execute function. ") ++ f ++ (" is not a function")))
  | _ => Reader data sels

/-- `ExecReader`: split the selector on `::` and pipe each step's result
into the next. -/
def ExecReader (data : Value) (selector : String) : Except SQLError Value :=
  (splitSelectorSteps selector.data).foldlM
    (fun result step =>
      match ParseSelector (String.mk step) with
      | .error e => .error e
      | .ok sels => ReaderExecutor result sels)
    data

/-- A selector with no `::` evaluates as its single step. -/
theorem ExecReader_single (data : Value) (s : String)
    (hsp : splitSelectorSteps s.data = [s.data]) :
    ExecReader data s =
      match ParseSelector s with
      | .error e => .error e
      | .ok sels => ReaderExecutor data sels := by
  unfold ExecReader
  rw [hsp]
  simp only [List.foldlM]
  have hmk : String.mk s.data = s := rfl
  rw [hmk]
  cases hps : ParseSelector s with
  | error e => rfl
  | ok sels =>
    simp only []
    cases hre : ReaderExecutor data sels with
    | error e => simp [hre]
    | ok v => simp [hre, List.foldlM]

namespace compare

/-- `compare.Cmp` after `As[float64]` coercion: `0` on IEEE equality, `1`
when strictly greater, otherwise `-1` (so NaN comparisons yield `-1`). -/
def Cmp (a b : GoFloat) : Int :=
  if a.feq b then 0 else if a.fgt b then 1 else -1

/-- `compare.Compare`: numbers compare numerically against numbers and
textually against strings; all other combinations compare the `fmt`
texts of both sides (`strings.Compare`). -/
def Compare (a b : Value) : Int :=
  match a with
  | .num f =>
    match b with
    | .num g => Cmp f g
    | .str s => strCompare (sprintV a) s
    | _ => strCompare (sprintV a) (sprintV b)
  | _ => strCompare (sprintV a) (sprintV b)

end compare

/-- An ORDER BY key: the selector path and the `Value` flag, which is set
when the direction is `sqlparser.AscOrder`. -/
abbrev OrderByItem := String × Bool

/-- Go's `value == nil` test on an `any`. -/
def Value.isNil : Value → Bool
  | .null => true
  | _ => false

theorem isNil_eq_false {v : Value} (h : v ≠ .null) : v.isNil = false := by
  cases v <;> simp [Value.isNil] at h ⊢

/-- sort.go `Compare`: the less-than predicate handed to `sort.Slice`.
An exhausted key list compares `false`; a `nil` left key value compares
`false`, a `nil` right key value (left non-nil) compares `true`; equal
values recurse into the remaining keys; otherwise the result is
`res == direction` where `direction` is `-1` for ascending keys. -/
def Compare (slice : List Value) (i j : Nat) (orderBy : List OrderByItem) :
    Except SQLError Bool :=
  match orderBy with
  | [] => .ok false
  | ob :: rest =>
    let direction : Int := if ob.2 then -1 else 1
    match ExecReader (slice.getD i .null) ob.1 with
    | .error e => .error e
    | .ok first =>
      if first.isNil then .ok false
      else
        match ExecReader (slice.getD j .null) ob.1 with
        | .error e => .error e
        | .ok second =>
          if second.isNil then .ok true
          else
            let res := compare.Compare first second
            if res = 0 then Compare slice i j rest
            else .ok (res == direction)

/-- An evaluated expression result (`any` as produced by `Expr`): a plain
value, a `ColumnName` handle, a `NeutalString`, or the `*float64` returned
by `BinaryExpr` (`fptr none` is the typed-nil pointer). -/
inductive Dyn where
  | val (v : Value)
  | colName (s : String)
  | neutral (s : String)
  | fptr (f : Option GoFloat)
deriving Repr

/-- `ValueOf`: resolve a `ColumnName` through the selector engine against
the current row, swallowing a `KEY_NOT_FOUND` error to `nil`; turn a
`NeutalString` into its text; dereference a `*float64` (nil pointer to
`nil`); pass everything else through.  (The `query` parameter of the
source is unused in its body.) -/
def ValueOf (current : GoMap) : Dyn → Except SQLError Value
  | .colName s =>
    match ExecReader (.obj current) s with
    | .error e => if e == KEY_NOT_FOUND then .ok .null else .error e
    | .ok rs => .ok rs
  | .neutral s => .ok (.str s)
  | .fptr none => .ok .null
  | .fptr (some f) => .ok (.num f)
  | .val v => .ok v

/-- `AsType[bool]`: nil passes through as a nil pointer (here `none`); a
boolean casts; anything else is an `INVALID_CAST`. -/
def AsTypeBool : Value → Except SQLError (Option Bool)
  | .null => .ok none
  | .bool b => .ok (some b)
  | _ => .error INVALID_CAST

/-- `AsType[float64]`. -/
def AsTypeFloat : Value → Except SQLError (Option GoFloat)
  | .null => .ok none
  | .num f => .ok (some f)
  | _ => .error INVALID_CAST

/-- Truncation toward zero on rationals (`int64(v)` for in-range finite
floats). -/
def ratTrunc (q : ℚ) : Int :=
  if 0 ≤ q then ⌊q⌋ else -⌊-q⌋

/-- `int64(v)` on a float64.  In-range finite values truncate toward
zero; conversion of infinities, NaN and out-of-range values is
implementation-specific in Go and modelled as `0` (no claim depends on
it), and the 64-bit wrap is not modelled. -/
def GoFloat.toInt64Modelled : GoFloat → Int
  | .finite q => ratTrunc q
  | _ => 0

/-- IEEE negation. -/
def GoFloat.fneg : GoFloat → GoFloat
  | .finite q => .finite (-q)
  | .inf neg => .inf (!neg)
  | .nan => .nan

/-- IEEE addition (finite sums exact). -/
def GoFloat.fadd : GoFloat → GoFloat → GoFloat
  | .finite a, .finite b => .finite (a + b)
  | .inf n, .finite _ => .inf n
  | .finite _, .inf n => .inf n
  | .inf a, .inf b => if a == b then .inf a else .nan
  | _, _ => .nan

def GoFloat.fsub (a b : GoFloat) : GoFloat :=
  a.fadd b.fneg

/-- IEEE multiplication (finite products exact). -/
def GoFloat.fmul : GoFloat → GoFloat → GoFloat
  | .finite a, .finite b => .finite (a * b)
  | .inf n, .finite b => if b = 0 then .nan else .inf (n ≠ decide (b < 0))
  | .finite a, .inf n => if a = 0 then .nan else .inf (n ≠ decide (a < 0))
  | .inf a, .inf b => .inf (a ≠ b)
  | _, _ => .nan

/-- `math.Mod`: NaN for a zero divisor or non-finite dividend; the
truncated remainder otherwise (`Mod(x, ±Inf) = x` for finite `x`). -/
def GoFloat.fmod : GoFloat → GoFloat → GoFloat
  | .finite a, .finite b =>
      if b = 0 then .nan else .finite (a - b * ((ratTrunc (a / b) : Int) : ℚ))
  | .finite a, .inf _ => .finite a
  | _, _ => .nan

/-- Two's-complement reinterpretation used by the 64-bit bitwise ops. -/
def toUnsigned64 (a : Int) : Nat :=
  (a % ((2 : Int) ^ 64)).toNat

def toSigned64 (n : Nat) : Int :=
  if n < 2 ^ 63 then (n : Int) else (n : Int) - 2 ^ 64

def i64And (a b : Int) : Int :=
  toSigned64 (toUnsigned64 a &&& toUnsigned64 b)

def i64Or (a b : Int) : Int :=
  toSigned64 (toUnsigned64 a ||| toUnsigned64 b)

def i64Xor (a b : Int) : Int :=
  toSigned64 (toUnsigned64 a ^^^ toUnsigned64 b)

/-- The `sqlparser` binary operator tags consumed by `BinaryExpr`. -/
inductive BinOp where
  | plus | minus | mult | div | intDiv | mod
  | bitAnd | bitOr | bitXor | shiftLeft | shiftRight
deriving DecidableEq, Repr

/-- The fragment of the SQL expression AST exercised by the evaluator
claims.  A numeric literal carries the float64 produced by
`strconv.ParseFloat` on its text; a string literal becomes a
`NeutalString`; `NullVal` evaluates to `nil`; `BoolVal` to a bool;
`ColName` to a `ColumnName` handle built from qualifier and name. -/
inductive SqlExpr where
  | andE (l r : SqlExpr)
  | orE (l r : SqlExpr)
  | binaryE (op : BinOp) (l r : SqlExpr)
  | litNum (f : GoFloat)
  | litStr (s : String)
  | nullE
  | boolE (b : Bool)
  | colNameE (qualifier name : String)
deriving Repr

/-- `AndExpr`: resolve the left side, fail `EXPECTATION_FAILED` on nil,
cast to bool, then the same on the right, and conjoin.  (The operand
computations are passed as `Except` values; the model has no effects, so
this preserves the source's evaluation order.) -/
def AndExpr (current : GoMap) (left right : Except SQLError Dyn) :
    Except SQLError Dyn := do
  let l ← left
  let leftValueRaw ← ValueOf current l
  match leftValueRaw with
  | .null => .error (EXPECTATION_FAILED.Extend ("failed to build AND expreesion. left side value is nil"))
  | lv =>
    match ← AsTypeBool lv with
    | none => .error (GO_PANIC ("nil pointer dereference"))
    | some leftValue => do
      let r ← right
      let rightValueRaw ← ValueOf current r
      match rightValueRaw with
      | .null => .error (EXPECTATION_FAILED.Extend ("failed to build AND expreesion. right side value is nil"))
      | rv =>
        match ← AsTypeBool rv with
        | none => .error (GO_PANIC ("nil pointer dereference"))
        | some rightValue => pure (.val (.bool (leftValue && rightValue)))

/-- `OrExpr`: as `AndExpr` with disjunction. -/
def OrExpr (current : GoMap) (left right : Except SQLError Dyn) :
    Except SQLError Dyn := do
  let l ← left
  let leftValueRaw ← ValueOf current l
  match leftValueRaw with
  | .null => .error (EXPECTATION_FAILED.Extend ("failed to build OR expreesion. left side value is nil"))
  | lv =>
    match ← AsTypeBool lv with
    | none => .error (GO_PANIC ("nil pointer dereference"))
    | some leftValue => do
      let r ← right
      let rightValueRaw ← ValueOf current r
      match rightValueRaw with
      | .null => .error (EXPECTATION_FAILED.Extend ("failed to build OR expreesion. right side value is nil"))
      | rv =>
        match ← AsTypeBool rv with
        | none => .error (GO_PANIC ("nil pointer dereference"))
        | some rightValue => pure (.val (.bool (leftValue || rightValue)))

/-- The operator dispatch of `BinaryExpr` on two resolved float64
operands.  Note that `DivOp` is plain Go float division — division by
zero yields an infinity or NaN with a `nil` error — while `IntDivOp`
converts to `int64` first and panics on a zero divisor. -/
def BinaryOpApply (op : BinOp) (lf rf : GoFloat) : Except SQLError GoFloat :=
  match op with
  | .plus => .ok (lf.fadd rf)
  | .minus => .ok (lf.fsub rf)
  | .mult => .ok (lf.fmul rf)
  | .div => .ok (lf.fdiv rf)
  | .intDiv =>
    if rf.toInt64Modelled = 0 then .error (GO_PANIC ("integer divide by zero"))
    else .ok (.finite ((lf.toInt64Modelled.tdiv rf.toInt64Modelled : Int) : ℚ))
  | .mod => .ok (lf.fmod rf)
  | .bitAnd => .ok (.finite ((i64And lf.toInt64Modelled rf.toInt64Modelled : Int) : ℚ))
  | .bitOr => .ok (.finite ((i64Or lf.toInt64Modelled rf.toInt64Modelled : Int) : ℚ))
  | .bitXor => .ok (.finite ((i64Xor lf.toInt64Modelled rf.toInt64Modelled : Int) : ℚ))
  | .shiftLeft =>
    if rf.toInt64Modelled < 0 then .error (GO_PANIC ("negative shift amount"))
    else .ok (.finite ((lf.toInt64Modelled * 2 ^ rf.toInt64Modelled.toNat : Int) : ℚ))
  | .shiftRight =>
    if rf.toInt64Modelled < 0 then .error (GO_PANIC ("negative shift amount"))
    else .ok (.finite ((lf.toInt64Modelled >>> rf.toInt64Modelled.toNat : Int) : ℚ))

/-- `BinaryExpr`: resolve both sides through the value-of rule; a nil
operand short-circuits to a nil `*float64` with no error; both sides cast
to float64; then the operator applies. -/
def BinaryExpr (current : GoMap) (op : BinOp) (left right : Except SQLError Dyn) :
    Except SQLError Dyn := do
  let l ← left
  let leftValueRaw ← ValueOf current l
  match leftValueRaw with
  | .null => pure (.fptr none)
  | lv =>
    match ← AsTypeFloat lv with
    | none => .error (GO_PANIC ("nil pointer dereference"))
    | some lf => do
      let r ← right
      let rightValueRaw ← ValueOf current r
      match rightValueRaw with
      | .null => pure (.fptr none)
      | rv =>
        match ← AsTypeFloat rv with
        | none => .error (GO_PANIC ("nil pointer dereference"))
        | some rf => do
          pure (.fptr (some (← BinaryOpApply op lf rf)))

/-- The `Expr` tree-walker restricted to the embedded AST fragment. -/
def Expr (current : GoMap) : SqlExpr → Except SQLError Dyn
  | .andE l r => AndExpr current (Expr current l) (Expr current r)
  | .orE l r => OrExpr current (Expr current l) (Expr current r)
  | .binaryE op l r => BinaryExpr current op (Expr current l) (Expr current r)
  | .litNum f => .ok (.val (.num f))
  | .litStr s => .ok (.neutral s)
  | .nullE => .ok (.val .null)
  | .boolE b => .ok (.val (.bool b))
  | .colNameE q n => .ok (.colName (if q == ("") then n else q ++ (".") ++ n))

/-- The composite "evaluate, then apply the value-of rule" used in the
statements below: what a side of a binary/logical operator resolves to. -/
def resolveExpr (current : GoMap) (e : SqlExpr) : Except SQLError Value := do
  ValueOf current (← Expr current e)

/-- `AsArray`: a slice passes through, an object wraps into a singleton
slice; `nil` panics inside `reflect` (`TypeOf(nil).Kind()`); every other
kind is an `INVALID_TYPE` (the reflect `Array`/`Slice` branch only applies
to non-`[]any` Go slices, which the embedded `Value` does not contain). -/
def AsArray : Value → Except SQLError (List Value)
  | .arr xs => .ok xs
  | .obj m => .ok [.obj m]
  | .null => .error (GO_PANIC ("nil reflect.Type"))
  | _ => .error INVALID_TYPE

/-- `ProcessAlias`: with a non-empty AS name, wrap every row as a one-key object. -/
def ProcessAlias (data : List Value) (aliasName : String) : List Value :=
  if aliasName.length == 0 then data
  else data.map (fun j => .obj [(aliasName, j)])

/-- The `from`/`dual` fields of the query mutated by FROM resolution. -/
structure FromState where
  fromSet : List Value
  dual : Bool
deriving Repr

/-- `BuilFromAliasedTable`, `TableName` branch: build the dotted table
name, resolve it through the selector engine against the root document;
force a `CteEvaluation` result and wrap its array per the AS name; on a `nil` result
enter dual mode when the unqualified name is `dual` (leaving the state
untouched otherwise); any other value converts to an array and is
wrapped per the AS name. -/
def BuilFromAliasedTable (data : GoMap) (aliasName : String) (qualifier name : String)
    (st : FromState) : Except SQLError FromState :=
  let tableName := if qualifier.length == 0 then name else qualifier ++ (".") ++ name
  match ExecReader (.obj data) tableName with
  | .error e => .error e
  | .ok d =>
    match d with
    | .thunk r =>
      match r with
      | .error e => .error e
      | .ok v =>
        match AsArray v with
        | .error e => .error e
        | .ok array => .ok { fromSet := ProcessAlias array aliasName, dual := st.dual }
    | .null =>
      if qualifier == ("") && tableName == ("dual") then
        match AsArray (.obj data) with
        | .error e => .error e
        | .ok array => .ok { fromSet := array, dual := true }
      else .ok st
    | other =>
      match AsArray other with
      | .error e => .error e
      | .ok array => .ok { fromSet := ProcessAlias array aliasName, dual := st.dual }

/-- The backward-navigation entry installed by `SubqueryExpr` and
`ExistExpr` before the subquery runs: `current["<-"] = query.data`. -/
def installBackward (queryData : GoMap) (current : GoMap) : GoMap :=
  mapSet current ("<-") (.obj queryData)

/-- The post-processor those evaluators schedule: `delete(current, "<-")`. -/
def backwardPostProcessor (current : GoMap) : GoMap :=
  mapDelete current ("<-")

/-- Go interface (in)equality as used by `ExecGroupBy`'s key matching:
distinct dynamic types are unequal; comparable scalars compare by value
(IEEE for float64, so NaN is unequal to itself); slices, maps and funcs
of identical type panic. -/
def goEq : Value → Value → Except SQLError Bool
  | .null, .null => .ok true
  | .bool a, .bool b => .ok (a == b)
  | .num f, .num g => .ok (f.feq g)
  | .str a, .str b => .ok (a == b)
  | .arr _, .arr _ => .error (GO_PANIC ("comparing uncomparable type []interface"))
  | .obj _, .obj _ => .error (GO_PANIC ("comparing uncomparable type map[string]interface"))
  | .thunk _, .thunk _ => .error (GO_PANIC ("comparing uncomparable type func"))
  | _, _ => .ok false

/-- The `innerMap` of `ExecGroupBy`: the row's grouping-key values, one
selector lookup per key (the association list refines Go's unordered
map iteration deterministically). -/
def tupleOf (keys : List String) (row : Value) : Except SQLError GoMap :=
  keys.mapM (fun k =>
    match ExecReader row k with
    | .error e => .error e
    | .ok rs => .ok (k, rs))

/-- The key-match loop of `ExecGroupBy`: `(*group)[key] != value` over
the tuple's entries, stopping at the first mismatch. -/
def tuplesMatch (group : GoMap) : GoMap → Except SQLError Bool
  | [] => .ok true
  | (k, v) :: rest =>
    match goEq (SelectObject group k) v with
    | .error e => .error e
    | .ok true => tuplesMatch group rest
    | .ok false => .ok false

/-- Route one row into the first group whose tuple matches, or open a new
group holding just this row. -/
def insertRow (groups : List (GoMap × List Value)) (t : GoMap) (row : Value) :
    Except SQLError (List (GoMap × List Value)) :=
  match groups with
  | [] => .ok [(t, [row])]
  | (g, items) :: rest =>
    match tuplesMatch g t with
    | .error e => .error e
    | .ok true => .ok ((g, items ++ [row]) :: rest)
    | .ok false =>
      match insertRow rest t row with
      | .error e => .error e
      | .ok gs => .ok ((g, items) :: gs)

/-- The grouping loop of `ExecGroupBy` over the input rows. -/
def groupRowsAux (keys : List String) (rows : List Value)
    (groups : List (GoMap × List Value)) : Except SQLError (List (GoMap × List Value)) :=
  match rows with
  | [] => .ok groups
  | row :: rest =>
    match tupleOf keys row with
    | .error e => .error e
    | .ok t =>
      match insertRow groups t row with
      | .error e => .error e
      | .ok gs => groupRowsAux keys rest gs

def groupRows (keys : List String) (rows : List Value) :
    Except SQLError (List (GoMap × List Value)) :=
  groupRowsAux keys rows []

/-- `ExecGroupBy` with a `nil` `havingDefinition` (so `ExecHaving` keeps
every group): no grouping keys passes the rows through; otherwise rows
coalesce by key tuple and each group becomes the object
`{key: value, …, "*": rows}`. -/
def ExecGroupBy (keys : List String) (current : List Value) :
    Except SQLError (List Value) :=
  if keys.length == 0 then .ok current
  else
    match groupRows keys current with
    | .error e => .error e
    | .ok gs => .ok (gs.map (fun p => Value.obj (p.1 ++ [(("*"), Value.arr p.2)])))

/-- The LIMIT/OFFSET tail of `exec` after projection, DISTINCT and ORDER
BY: `offset` is `0` unless an `offsetDefinition` is present, `limit`
defaults to the row count, an offset at or past the row count empties the
result (`rs = nil`), the limit clamps to the row count, and the result is
the reslice `rs[offset:][:limit]`.  When `limit` exceeds `len - offset`
that reslice reads past the slice's length — whether it panics or exposes
capacity padding depends on the slice's capacity; modelled as a panic, a
region none of the claims reach. -/
def execLimitOffset (offsetDefinition limitDefinition : Int) (rs : List Value) :
    Except SQLError (List Value) :=
  let offset : Int := if offsetDefinition == -1 then 0 else offsetDefinition
  let limit0 : Int := if limitDefinition == -1 then (rs.length : Int) else limitDefinition
  if offset ≥ (rs.length : Int) then .ok []
  else
    let limit : Int := if limit0 ≥ (rs.length : Int) then (rs.length : Int) else limit0
    if 0 ≤ offset ∧ 0 ≤ limit ∧ limit ≤ (rs.length : Int) - offset then
      .ok ((rs.drop offset.toNat).take limit.toNat)
    else .error (GO_PANIC ("slice bounds out of range"))

/-- `strings.ReplaceAll` with a single-character pattern. -/
def replaceAllChar (oldC : Char) (new : List Char) : List Char → List Char
  | [] => []
  | c :: rest =>
    if c == oldC then new ++ replaceAllChar oldC new rest
    else c :: replaceAllChar oldC new rest

/-- `strings.ToLower` on the ASCII fragment (Char.toLower). -/
def goToLower (s : String) : String :=
  String.mk (s.data.map Char.toLower)

/-- A parsed element of the LIKE-generated regular expressions: a literal
character, `.` (any character except newline), or `.*`. -/
inductive RTok where
  | lit (c : Char)
  | dot
  | dotStar
deriving DecidableEq, Repr

/-- RE2 metacharacters; patterns containing them parse to operators
rather than literals, which is outside the modelled subset. -/
def regexMeta (c : Char) : Bool :=
  c == '.' || c == '*' || c == '+' || c == '?' || c == '(' || c == ')' ||
  c == '[' || c == ']' || c == '|' || c == '^' || c == '$' || c == '\\' ||
  c == lBrace || c == rBrace

/-- Parse the body of an anchored LIKE-generated regex into tokens;
`none` outside the literal/dot/dot-star subset. -/
def parseSimpleRegex : List Char → Option (List RTok)
  | [] => some []
  | c :: rest =>
    if c == '.' then
      match rest with
      | d :: rest2 =>
        if d == '*' then (parseSimpleRegex rest2).map (fun ts => RTok.dotStar :: ts)
        else (parseSimpleRegex (d :: rest2)).map (fun ts => RTok.dot :: ts)
      | [] => some [RTok.dot]
    else if regexMeta c then none
    else (parseSimpleRegex rest).map (fun ts => RTok.lit c :: ts)

/-- Full match of a token list against a string, with RE2's non-newline
`.` semantics. -/
def rtoksMatch (ts : List RTok) (s : List Char) : Bool :=
  match ts, s with
  | [], [] => true
  | [], _ :: _ => false
  | .lit c :: rest, d :: ds => c == d && rtoksMatch rest ds
  | .lit _ :: _, [] => false
  | .dot :: rest, d :: ds => !(d == '\n') && rtoksMatch rest ds
  | .dot :: _, [] => false
  | .dotStar :: rest, s =>
    rtoksMatch rest s ||
      (match s with
       | [] => false
       | d :: ds => !(d == '\n') && rtoksMatch (.dotStar :: rest) ds)
termination_by (ts.length, s.length)

/-- `regexp.Match` on the anchored patterns `RegexComparison` builds:
strip the anchors, parse the body, and fully match.  Patterns outside the
literal/dot/dot-star subset fall to a model boundary error (Go would
consult RE2; no claim reaches this case). -/
def regexpMatchModelled (re : String) (s : String) : Except SQLError Bool :=
  match re.data with
  | '^' :: rest =>
    match rest.getLast? with
    | some '$' =>
      match parseSimpleRegex rest.dropLast with
      | some toks => .ok (rtoksMatch toks s.data)
      | none => .error (("regex outside the modelled subset"))
    | _ => .error (("regex outside the modelled subset"))
  | _ => .error (("regex outside the modelled subset"))

/-- `RegexComparison`: lower-case the pattern, replace `_` with `.` and
`%` with `.*`, anchor with `^…$`, and match the lower-cased `fmt` text of
the left value against it. -/
def RegexComparison (left : Value) (pattern : String) : Except SQLError Bool :=
  let regExpr := replaceAllChar '_' ['.'] (goToLower pattern).data
  let regExpr2 := replaceAllChar '%' ['.', '*'] regExpr
  regexpMatchModelled (String.mk (('^' :: regExpr2) ++ ['$'])) (goToLower (sprintV left))

@[simp]
theorem exceptBindOk {α β : Type} (a : α) (f : α → Except SQLError β) :
    (Except.ok a >>= f) = f a := rfl

@[simp]
theorem exceptBindErr {α β : Type} (e : SQLError) (f : α → Except SQLError β) :
    ((Except.error e : Except SQLError α) >>= f) = .error e := rfl

@[simp]
theorem exceptPureEq {α : Type} (a : α) : (pure a : Except SQLError α) = .ok a := rfl

/-- Decomposition of a successful resolve into its evaluation and
value-of steps. -/
theorem resolveExpr_ok (current : GoMap) (e : SqlExpr) (v : Value)
    (h : resolveExpr current e = .ok v) :
    ∃ d, Expr current e = .ok d ∧ ValueOf current d = .ok v := by
  unfold resolveExpr at h
  cases hd : Expr current e with
  | error er => rw [hd] at h; exact absurd h (by simp [Except.bind])
  | ok d =>
    rw [hd] at h
    exact ⟨d, rfl, h⟩

/-- C1: the claim reads "if the divisor is zero then evaluation fails with
an arithmetic error (e.g. SELECT 1/0)".  The repository's own test suite
agrees (`plsql_test.go`, "Division by Zero", `SELECT 10 / 0` with
`wantErr: true`), but the code does not: `BinaryExpr`'s `DivOp` case is
plain Go float64 division, so `10 / 0` evaluates to `+Inf` with a `nil`
error.  This theorem evaluates the embedded evaluator at that failing
input: the result is `ok +Inf`, not an error. -/
theorem C1_division_by_zero_yields_inf_without_error :
    Expr [] (.binaryE .div (.litNum (.finite 10)) (.litNum (.finite 0)))
      = .ok (.fptr (some (.inf false))) := rfl

/-- C7: for `AND`/`OR`, both sides are resolved through the value-of rule
and cast to booleans; a side resolving to null fails with
`EXPECTATION_FAILED` (left first, before the right side is consulted), and
two boolean sides yield the conjunction/disjunction. -/
theorem C7_and_or_expr (current : GoMap) (l r : SqlExpr) :
    (resolveExpr current l = .ok .null →
        Expr current (.andE l r) =
          .error (EXPECTATION_FAILED.Extend ("failed to build AND expreesion. left side value is nil")) ∧
        Expr current (.orE l r) =
          .error (EXPECTATION_FAILED.Extend ("failed to build OR expreesion. left side value is nil"))) ∧
    (∀ b1 : Bool, resolveExpr current l = .ok (.bool b1) →
        resolveExpr current r = .ok .null →
        Expr current (.andE l r) =
          .error (EXPECTATION_FAILED.Extend ("failed to build AND expreesion. right side value is nil")) ∧
        Expr current (.orE l r) =
          .error (EXPECTATION_FAILED.Extend ("failed to build OR expreesion. right side value is nil"))) ∧
    (∀ b1 b2 : Bool, resolveExpr current l = .ok (.bool b1) →
        resolveExpr current r = .ok (.bool b2) →
        Expr current (.andE l r) = .ok (.val (.bool (b1 && b2))) ∧
        Expr current (.orE l r) = .ok (.val (.bool (b1 || b2)))) := by
  refine ⟨fun h1 => ?_, fun b1 h1 h2 => ?_, fun b1 b2 h1 h2 => ?_⟩
  · obtain ⟨d, hd, hv⟩ := resolveExpr_ok current l .null h1
    constructor <;> simp [Expr, AndExpr, OrExpr, hd, hv, Except.bind]
  · obtain ⟨d, hd, hv⟩ := resolveExpr_ok current l (.bool b1) h1
    obtain ⟨d2, hd2, hv2⟩ := resolveExpr_ok current r .null h2
    constructor <;>
      simp [Expr, AndExpr, OrExpr, hd, hv, hd2, hv2, AsTypeBool, Except.bind]
  · obtain ⟨d, hd, hv⟩ := resolveExpr_ok current l (.bool b1) h1
    obtain ⟨d2, hd2, hv2⟩ := resolveExpr_ok current r (.bool b2) h2
    constructor <;>
      simp [Expr, AndExpr, OrExpr, hd, hv, hd2, hv2, AsTypeBool, Except.bind]

/-- Witness for C7 at concrete operands. -/
theorem C7_and_or_expr_witness :
    Expr [] (.andE .nullE (.boolE true)) =
      .error (EXPECTATION_FAILED.Extend ("failed to build AND expreesion. left side value is nil")) ∧
    Expr [] (.andE (.boolE true) .nullE) =
      .error (EXPECTATION_FAILED.Extend ("failed to build AND expreesion. right side value is nil")) ∧
    Expr [] (.andE (.boolE true) (.boolE false)) = .ok (.val (.bool false)) ∧
    Expr [] (.orE (.boolE true) (.boolE false)) = .ok (.val (.bool true)) :=
  ⟨((C7_and_or_expr [] .nullE (.boolE true)).1 rfl).1,
   ((C7_and_or_expr [] (.boolE true) .nullE).2.1 true rfl rfl).1,
   ((C7_and_or_expr [] (.boolE true) (.boolE false)).2.2 true false rfl rfl).1,
   ((C7_and_or_expr [] (.boolE true) (.boolE false)).2.2 true false rfl rfl).2⟩

/-- C2 counterexample: the claim says a null left key value makes the
left row sort first, i.e. the `sort.Slice` less-predicate `Compare`
returns `true`; on the concrete slice `[{k: null}, {k: 1}]` with the
single ascending key `k` it returns `false` (nulls sort last on the
left side as well). -/
theorem C2_null_left_counterexample :
    Compare [.obj [(("k"), .null)], .obj [(("k"), .num (.finite 1))]] 0 1
        [(("k"), true)] = .ok false ∧
    ¬ Compare [.obj [(("k"), .null)], .obj [(("k"), .num (.finite 1))]] 0 1
        [(("k"), true)] = .ok true := by
  have hE1 : ExecReader (.obj [(("k"), Value.null)]) ("k") = .ok .null := by
    rw [ExecReader_single _ ("k") rfl]
    rw [show ParseSelector ("k") = .ok [.key ("k")] from rfl]
    simp only [ReaderExecutor]
    rw [Reader_key_obj, Reader_nil]
    rfl
  have h : Compare [.obj [(("k"), .null)], .obj [(("k"), .num (.finite 1))]] 0 1
      [(("k"), true)] = .ok false := by
    simp only [Compare]
    rw [show ([Value.obj [(("k"), Value.null)],
        Value.obj [(("k"), Value.num (.finite 1))]].getD 0 Value.null) =
        Value.obj [(("k"), Value.null)] from rfl]
    rw [hE1]
    rfl
  exact ⟨h, by rw [h]; simp⟩

/-- C2 as amended: ORDER BY sorts with Go's `sort.Slice` (not a
guaranteed-stable sort) using the composite-key comparator `Compare`; for
the leading `(path, ascending)` pair, the value is looked up via the
selector on each row and (i) a null left value makes the comparator
return `false` — the left row sorts after, not first —, (ii) a null right
value (left non-null) returns `true`, (iii) equal values per the §4.C
comparator recurse into the remaining pairs, and (iv) otherwise the
result is `res == direction` with direction `-1` for ascending. -/
theorem C2_order_by_comparator_amended (slice : List Value) (i j : Nat)
    (key : String) (asc : Bool) (rest : List OrderByItem) :
    (ExecReader (slice.getD i .null) key = .ok .null →
        Compare slice i j ((key, asc) :: rest) = .ok false) ∧
    (∀ first : Value,
        ExecReader (slice.getD i .null) key = .ok first → first ≠ .null →
        ExecReader (slice.getD j .null) key = .ok .null →
        Compare slice i j ((key, asc) :: rest) = .ok true) ∧
    (∀ first second : Value,
        ExecReader (slice.getD i .null) key = .ok first → first ≠ .null →
        ExecReader (slice.getD j .null) key = .ok second → second ≠ .null →
        compare.Compare first second = 0 →
        Compare slice i j ((key, asc) :: rest) = Compare slice i j rest) ∧
    (∀ first second : Value,
        ExecReader (slice.getD i .null) key = .ok first → first ≠ .null →
        ExecReader (slice.getD j .null) key = .ok second → second ≠ .null →
        compare.Compare first second ≠ 0 →
        Compare slice i j ((key, asc) :: rest) =
          .ok (compare.Compare first second == (if asc then (-1 : Int) else 1))) := by
  refine ⟨fun h1 => ?_, fun first h1 hne h2 => ?_,
    fun first second h1 hne1 h2 hne2 hc => ?_,
    fun first second h1 hne1 h2 hne2 hc => ?_⟩
  · simp only [Compare]
    rw [h1]
    rfl
  · simp only [Compare]
    rw [h1]
    simp only [isNil_eq_false hne, Bool.false_eq_true, if_false]
    rw [h2]
    rfl
  · simp only [Compare]
    rw [h1]
    simp only [isNil_eq_false hne1, Bool.false_eq_true, if_false]
    rw [h2]
    simp only [isNil_eq_false hne2, Bool.false_eq_true, if_false]
    rw [if_pos hc]
  · simp only [Compare]
    rw [h1]
    simp only [isNil_eq_false hne1, Bool.false_eq_true, if_false]
    rw [h2]
    simp only [isNil_eq_false hne2, Bool.false_eq_true, if_false]
    rw [if_neg hc]

/-- Witness for the amended C2 on concrete two-row slices. -/
theorem C2_order_by_comparator_amended_witness :
    Compare [.obj [(("k"), .num (.finite 2))], .obj [(("k"), .null)]] 0 1
        [(("k"), true)] = .ok true ∧
    Compare [.obj [(("k"), .num (.finite 2))], .obj [(("k"), .num (.finite 1))]] 0 1
        [(("k"), true)] =
      .ok (compare.Compare (.num (.finite 2)) (.num (.finite 1)) == (-1 : Int)) ∧
    Compare [.obj [(("k"), .num (.finite 2))], .obj [(("k"), .num (.finite 2))]] 0 1
        [(("k"), true), (("k"), false)] =
      Compare [.obj [(("k"), .num (.finite 2))], .obj [(("k"), .num (.finite 2))]] 0 1
        [(("k"), false)] := by
  have hobj : ∀ v : Value, ExecReader (.obj [(("k"), v)]) ("k") = .ok v := by
    intro v
    rw [ExecReader_single _ ("k") rfl]
    rw [show ParseSelector ("k") = .ok [.key ("k")] from rfl]
    simp only [ReaderExecutor]
    rw [Reader_key_obj, Reader_nil]
    rfl
  refine ⟨?_, ?_, ?_⟩
  · exact (C2_order_by_comparator_amended _ 0 1 ("k") true []).2.1
      (.num (.finite 2)) (hobj _) (by simp) (hobj _)
  · exact (C2_order_by_comparator_amended _ 0 1 ("k") true []).2.2.2
      (.num (.finite 2)) (.num (.finite 1)) (hobj _) (by simp) (hobj _) (by simp)
      (by decide)
  · exact (C2_order_by_comparator_amended _ 0 1 ("k") true [(("k"), false)]).2.2.1
      (.num (.finite 2)) (.num (.finite 2)) (hobj _) (by simp) (hobj _) (by simp)
      (by decide)

theorem wordChar_ne_char (c x : Char) (h : isWordChar c = true)
    (hx : isWordChar x = false) : (c == x) = false := by
  cases hbe : c == x with
  | false => rfl
  | true =>
    rw [eq_of_beq hbe] at h
    rw [h] at hx
    exact Bool.noConfusion hx

theorem word_all_tail {c : Char} {rest : List Char}
    (hw : ∀ d ∈ c :: rest, isWordChar d = true) : ∀ d ∈ rest, isWordChar d = true :=
  fun d hd => hw d (List.mem_cons_of_mem c hd)

/-- The lexer on a non-empty all-word-character string produces the single
word token. -/
theorem scanTokens_word (cs : List Char) (hne : cs ≠ [])
    (hw : ∀ c ∈ cs, isWordChar c = true) : scanTokens cs = [String.mk cs] := by
  cases cs with
  | nil => exact absurd rfl hne
  | cons c rest =>
    have hc := hw c (List.mem_cons_self c rest)
    have hw' := word_all_tail hw
    rw [scanTokens_step]
    have h1 : nextToken (c :: rest) =
        some (String.mk (c :: rest.takeWhile isWordChar),
          ⟨rest.dropWhile isWordChar, by
            have := lenDropWhileLe isWordChar rest
            simp only [List.length_cons]
            omega⟩) := by
      simp only [nextToken, wordChar_ne_char c quoteChar hc (by decide),
        wordChar_ne_char c '<' hc (by decide),
        wordChar_ne_char c '*' hc (by decide),
        wordChar_ne_char c '[' hc (by decide),
        wordChar_ne_char c lBrace hc (by decide), hc,
        Bool.false_eq_true, if_false, if_true]
    rw [h1]
    simp only [List.takeWhile_eq_self_iff.mpr hw', List.dropWhile_eq_nil_iff.mpr hw']
    rfl

theorem splitN2Arrow_word (cs : List Char) (hw : ∀ c ∈ cs, isWordChar c = true) :
    splitN2Arrow cs = none := by
  induction cs with
  | nil => rfl
  | cons c rest ih =>
    have hc := hw c (List.mem_cons_self c rest)
    simp only [splitN2Arrow, wordChar_ne_char c '=' hc (by decide),
      Bool.false_eq_true, if_false, ih (word_all_tail hw), Option.map_none']

theorem splitSelectorSteps_word (cs : List Char)
    (hw : ∀ c ∈ cs, isWordChar c = true) : splitSelectorSteps cs = [cs] := by
  induction cs with
  | nil => rfl
  | cons c rest ih =>
    have hc := hw c (List.mem_cons_self c rest)
    cases rest with
    | nil => simp [splitSelectorSteps, consPrepend]
    | cons d rest2 =>
      simp only [splitSelectorSteps, wordChar_ne_char c ':' hc (by decide),
        Bool.false_and, Bool.false_eq_true, if_false]
      rw [ih (word_all_tail hw)]
      rfl

theorem trimQuotes_word (cs : List Char) (hne : cs ≠ [])
    (hw : ∀ c ∈ cs, isWordChar c = true) :
    trimRightChar quoteChar (trimLeftChar quoteChar cs) = cs := by
  cases cs with
  | nil => exact absurd rfl hne
  | cons c rest =>
    have hc := hw c (List.mem_cons_self c rest)
    have htl : trimLeftChar quoteChar (c :: rest) = c :: rest := by
      simp only [trimLeftChar, List.dropWhile_cons,
        wordChar_ne_char c quoteChar hc (by decide), Bool.false_eq_true, if_false]
    rw [htl]
    unfold trimRightChar
    cases hrev : (c :: rest).reverse with
    | nil => exact absurd hrev (by simp)
    | cons d ds =>
      have hd : d ∈ c :: rest := by
        rw [show d ∈ c :: rest ↔ d ∈ (c :: rest).reverse from (List.mem_reverse).symm, hrev]
        exact List.mem_cons_self d ds
      rw [List.dropWhile_cons]
      simp only [wordChar_ne_char d quoteChar (hw d hd) (by decide),
        Bool.false_eq_true, if_false]
      rw [← hrev, List.reverse_reverse]

theorem selOfToken_word (cs : List Char) (hne : cs ≠ [])
    (hw : ∀ c ∈ cs, isWordChar c = true) :
    selOfToken (String.mk cs) = .ok (.key (String.mk cs)) := by
  cases cs with
  | nil => exact absurd rfl hne
  | cons c rest =>
    have hc := hw c (List.mem_cons_self c rest)
    simp only [selOfToken, wordChar_ne_char c '[' hc (by decide),
      wordChar_ne_char c lBrace hc (by decide), Bool.false_eq_true, if_false]
    rw [trimQuotes_word (c :: rest) hne hw]
    rfl

/-- `ParseSelector` on a non-empty word string yields the single key. -/
theorem ParseSelector_word (k : String) (hne : k.data ≠ [])
    (hw : ∀ c ∈ k.data, isWordChar c = true) :
    ParseSelector k = .ok [.key k] := by
  unfold ParseSelector
  rw [splitN2Arrow_word k.data hw]
  rw [scanTokens_word k.data hne hw]
  rw [show String.mk k.data = k from rfl]
  simp [List.mapM, List.mapM.loop, selOfToken_word k.data hne (by simpa using hw)]

/-- `ExecReader` on a word selector is a single key `Reader` step. -/
theorem ExecReader_word (data : Value) (k : String) (hne : k.data ≠ [])
    (hw : ∀ c ∈ k.data, isWordChar c = true) :
    ExecReader data k = Reader data [.key k] := by
  rw [ExecReader_single data k (by rw [splitSelectorSteps_word k.data hw])]
  rw [ParseSelector_word k hne hw]
  rfl

theorem mapGet_mapSet_self (m : GoMap) (k : String) (v : Value) :
    mapGet (mapSet m k v) k = some v := by
  induction m with
  | nil => simp [mapGet, mapSet, List.find?]
  | cons p rest ih =>
    by_cases hp : p.1 == k
    · simp [mapGet, mapSet, hp, List.find?]
    · simp only [mapSet, hp, Bool.false_eq_true, if_false]
      simp only [mapGet, List.find?, hp]
      exact ih

theorem mapGet_mapDelete_self (m : GoMap) (k : String) :
    mapGet (mapDelete m k) k = none := by
  induction m with
  | nil => rfl
  | cons p rest ih =>
    by_cases hp : p.1 == k
    · simpa [mapDelete, hp] using ih
    · simp only [mapDelete, List.filter, hp, Bool.not_false]
      simpa [mapGet, List.find?, hp, mapDelete] using ih

/-- C9: a column-name lookup through `ValueOf` resolves the path with the
selector engine against the current row; an exact `KEY_NOT_FOUND` failure
is swallowed to `Null` with no error, any other selector error propagates,
and a key absent from the row resolves to `Null` (the selector returns
Go's `nil` for missing keys, no error arises). -/
theorem C9_column_lookup_swallows_key_not_found (current : GoMap) (path : String) :
    (ValueOf current (.colName path) =
        match ExecReader (.obj current) path with
        | .error e => if e == KEY_NOT_FOUND then .ok .null else .error e
        | .ok v => .ok v) ∧
    (ExecReader (.obj current) path = .error KEY_NOT_FOUND →
        ValueOf current (.colName path) = .ok .null) ∧
    (∀ e : SQLError, ExecReader (.obj current) path = .error e → e ≠ KEY_NOT_FOUND →
        ValueOf current (.colName path) = .error e) ∧
    (path.data ≠ [] → (∀ c ∈ path.data, isWordChar c = true) →
        mapGet current path = none →
        ValueOf current (.colName path) = .ok .null) := by
  refine ⟨rfl, fun h => ?_, fun e h hne => ?_, fun hne hw habs => ?_⟩
  · simp [ValueOf, h]
  · simp [ValueOf, h, hne]
  · have hsel : ExecReader (.obj current) path = .ok .null := by
      rw [ExecReader_word (.obj current) path hne hw]
      rw [Reader_key_obj, Reader_nil]
      simp [SelectObject, habs]
    simp [ValueOf, hsel]

/-- Witness for C9: a thunk failing with `KEY_NOT_FOUND` is swallowed, a
different error propagates, and an absent key yields `Null`. -/
theorem C9_column_lookup_witness :
    ValueOf [(("k"), .thunk (.error KEY_NOT_FOUND))] (.colName ("k.x")) = .ok .null ∧
    ValueOf [(("k"), .thunk (.error INVALID_TYPE))] (.colName ("k.x")) =
      .error INVALID_TYPE ∧
    ValueOf [(("other"), .num (.finite 1))] (.colName ("missing")) = .ok .null := by
  have hthunk : ∀ e : SQLError,
      ExecReader (.obj [(("k"), Value.thunk (.error e))]) ("k.x") = .error e := by
    intro e
    rw [ExecReader_single _ ("k.x") rfl]
    rw [show ParseSelector ("k.x") = .ok [.key ("k"), .key ("x")] from rfl]
    simp only [ReaderExecutor]
    rw [Reader_key_obj]
    rw [show SelectObject [(("k"), Value.thunk (.error e))] ("k") =
        .thunk (.error e) from rfl]
    rw [Reader_key_thunk]
  refine ⟨?_, ?_, ?_⟩
  · exact (C9_column_lookup_swallows_key_not_found _ ("k.x")).2.1 (hthunk _)
  · exact (C9_column_lookup_swallows_key_not_found _ ("k.x")).2.2.1
      INVALID_TYPE (hthunk _) (by decide)
  · exact (C9_column_lookup_swallows_key_not_found _ ("missing")).2.2.2
      (by decide) (by decide) rfl

/-- C3: before a subquery or `EXISTS` predicate runs, the entry
`"<-" ↦ query.data` is installed in the current row; the scheduled
post-processor removes it; and while installed, resolving `<-<key>`
against the row yields exactly what resolving `<key>` against the parent
scope yields. -/
theorem C3_backward_navigation (queryData current : GoMap) (k : String)
    (hne : k.data ≠ []) (hw : ∀ c ∈ k.data, isWordChar c = true) :
    mapGet (installBackward queryData current) ("<-") = some (.obj queryData) ∧
    mapGet (backwardPostProcessor (installBackward queryData current)) ("<-") = none ∧
    ExecReader (.obj (installBackward queryData current)) (("<-") ++ k) =
      ExecReader (.obj queryData) k := by
  refine ⟨mapGet_mapSet_self current ("<-") (.obj queryData),
    mapGet_mapDelete_self _ ("<-"), ?_⟩
  have hdata : (("<-") ++ k).data = '<' :: '-' :: k.data := by
    rw [String.data_append]
    rfl
  have hsp : splitSelectorSteps (("<-") ++ k).data = [(("<-") ++ k).data] := by
    rw [hdata]
    simp only [splitSelectorSteps, Bool.false_and, Bool.false_eq_true, if_false]
    cases hk : k.data with
    | nil => exact absurd hk hne
    | cons c rest =>
      simp only [splitSelectorSteps]
      rw [show (('-' == ':') && (c == ':')) = false from by simp]
      simp only [Bool.false_eq_true, if_false]
      rw [← hk, splitSelectorSteps_word k.data hw]
      rfl
  have hps : ParseSelector (("<-") ++ k) = .ok [.key ("<-"), .key k] := by
    unfold ParseSelector
    rw [hdata]
    rw [show splitN2Arrow ('<' :: '-' :: k.data) =
        (splitN2Arrow k.data).map (fun p => ('<' :: '-' :: p.1, p.2)) from by
      simp [splitN2Arrow, Option.map_map]
      rfl]
    rw [splitN2Arrow_word k.data hw, Option.map_none']
    rw [show scanTokens ('<' :: '-' :: k.data) = ("<-") :: scanTokens k.data from by
      rw [scanTokens_step]
      rfl]
    rw [scanTokens_word k.data hne hw]
    simp only [List.mapM, List.mapM.loop]
    rw [show selOfToken ("<-") = .ok (.key ("<-")) from rfl]
    rw [show String.mk k.data = k from rfl]
    have hsel := selOfToken_word k.data hne hw
    rw [show String.mk k.data = k from rfl] at hsel
    simp [hsel]
  rw [ExecReader_single _ (("<-") ++ k) hsp, hps]
  simp only [ReaderExecutor]
  rw [Reader_key_obj]
  rw [show SelectObject (installBackward queryData current) ("<-") = .obj queryData from by
    simp [SelectObject, installBackward, mapGet_mapSet_self]]
  rw [ExecReader_word (.obj queryData) k hne hw]

/-- Witness for C3 at a concrete parent document, row and key. -/
theorem C3_backward_navigation_witness :
    mapGet (installBackward [(("meta"), .str ("ip"))] [(("id"), .num (.finite 1))])
        ("<-") = some (.obj [(("meta"), .str ("ip"))]) ∧
    mapGet (backwardPostProcessor
        (installBackward [(("meta"), .str ("ip"))] [(("id"), .num (.finite 1))]))
        ("<-") = none ∧
    ExecReader (.obj (installBackward [(("meta"), .str ("ip"))]
        [(("id"), .num (.finite 1))])) (("<-") ++ ("meta")) =
      ExecReader (.obj [(("meta"), .str ("ip"))]) ("meta") :=
  C3_backward_navigation [(("meta"), .str ("ip"))] [(("id"), .num (.finite 1))]
    ("meta") (by decide) (by decide)

/-- C10: in the LIMIT/OFFSET tail of `exec`, an OFFSET at or past the row
count empties the result with no error, and with OFFSET absent a LIMIT at
or past the row count clamps to the row count and returns every row. -/
theorem C10_limit_offset_clamp (offsetDef limitDef : Int) (rs : List Value) :
    (0 ≤ offsetDef → (rs.length : Int) ≤ offsetDef →
        execLimitOffset offsetDef limitDef rs = .ok []) ∧
    ((rs.length : Int) ≤ limitDef →
        execLimitOffset (-1) limitDef rs = .ok rs) := by
  constructor
  · intro h0 hn
    unfold execLimitOffset
    have hne : (offsetDef == -1) = false := by
      simp only [beq_eq_false_iff_ne, ne_eq]
      omega
    rw [hne]
    simp only [Bool.false_eq_true, if_false]
    rw [if_pos (by omega)]
  · intro hl
    unfold execLimitOffset
    simp only [beq_self_eq_true, if_true]
    by_cases hz : rs.length = 0
    · rw [if_pos (by omega)]
      cases rs with
      | nil => rfl
      | cons a l => simp at hz
    · rw [if_neg (by omega)]
      have hlne : (limitDef == -1) = false := by
        simp only [beq_eq_false_iff_ne, ne_eq]
        omega
      rw [hlne]
      simp only [Bool.false_eq_true, if_false]
      rw [if_pos hl]
      rw [if_pos (by omega)]
      simp

/-- Witness for C10 on a concrete two-row result. -/
theorem C10_limit_offset_clamp_witness :
    execLimitOffset 5 (-1) [.num (.finite 1), .num (.finite 2)] = .ok [] ∧
    execLimitOffset (-1) 7 [.num (.finite 1), .num (.finite 2)] =
      .ok [.num (.finite 1), .num (.finite 2)] :=
  ⟨(C10_limit_offset_clamp 5 (-1) _).1 (by decide) (by decide),
   (C10_limit_offset_clamp (-1) 7 _).2 (by decide)⟩

/-- C5: FROM resolution of an aliased table name builds the dotted name,
resolves it via the selector engine against the root document, and then:
a `CteEvaluation` thunk is forced and its value converted to an array and
aliased; a null result with the unqualified name `dual` enters dual mode
with the root document as the one-row FROM-set; a null result otherwise
leaves the state untouched; any other value converts to an array and is
aliased; and aliasing with a non-empty `AS a` wraps every row as
`{a: row}` while an empty alias leaves the rows as they are. -/
theorem C5_from_aliased_table (data : GoMap) (aliasName qualifier name : String)
    (st : FromState) :
    (∀ (r : Except SQLError Value) (v : Value) (arrv : List Value),
        ExecReader (.obj data)
            (if qualifier.length == 0 then name else qualifier ++ (".") ++ name) =
          .ok (.thunk r) →
        r = .ok v → AsArray v = .ok arrv →
        BuilFromAliasedTable data aliasName qualifier name st =
          .ok { fromSet := ProcessAlias arrv aliasName, dual := st.dual }) ∧
    (ExecReader (.obj data) name = .ok .null → qualifier = ("") → name = ("dual") →
        BuilFromAliasedTable data aliasName qualifier name st =
          .ok { fromSet := [.obj data], dual := true }) ∧
    (ExecReader (.obj data)
          (if qualifier.length == 0 then name else qualifier ++ (".") ++ name) =
        .ok .null →
      ¬ (qualifier = ("") ∧ name = ("dual")) →
      BuilFromAliasedTable data aliasName qualifier name st = .ok st) ∧
    (∀ (v : Value) (arrv : List Value),
        ExecReader (.obj data)
            (if qualifier.length == 0 then name else qualifier ++ (".") ++ name) =
          .ok v →
        v ≠ .null → (∀ r, v ≠ .thunk r) → AsArray v = .ok arrv →
        BuilFromAliasedTable data aliasName qualifier name st =
          .ok { fromSet := ProcessAlias arrv aliasName, dual := st.dual }) ∧
    (∀ rows : List Value, aliasName ≠ ("") →
        ProcessAlias rows aliasName = rows.map (fun j => .obj [(aliasName, j)])) ∧
    (∀ rows : List Value, ProcessAlias rows ("") = rows) := by
  refine ⟨fun r v arrv h1 h2 h3 => ?_, fun h1 h2 h3 => ?_, fun h1 h2 => ?_,
    fun v arrv h1 hne hnt h3 => ?_, fun rows hne => ?_, fun rows => ?_⟩
  · unfold BuilFromAliasedTable
    simp only [h1, h2, h3]
  · subst h2; subst h3
    unfold BuilFromAliasedTable
    simp only [show ((("" : String).length == 0) = true) from rfl, if_true, h1]
    simp only [show ((("" : String) == ("" : String)) &&
        (("dual" : String) == ("dual" : String))) = true from rfl, if_true]
    simp only [AsArray]
  · unfold BuilFromAliasedTable
    simp only [h1]
    have hcond : ((qualifier == ("")) &&
        ((if (qualifier.length == 0) = true then name else qualifier ++ (".") ++ name)
          == ("dual"))) = false := by
      cases hq : qualifier == ("") with
      | false => rfl
      | true =>
        have hqe : qualifier = ("") := eq_of_beq hq
        subst hqe
        simp only [Bool.true_and]
        simp only [show ((("" : String).length == 0) = true) from rfl, if_true]
        cases hn : name == ("dual") with
        | false => rfl
        | true => exact absurd ⟨rfl, eq_of_beq hn⟩ h2
    simp only [hcond, Bool.false_eq_true, if_false]
  · unfold BuilFromAliasedTable
    simp only [h1]
    cases v with
    | null => exact absurd rfl hne
    | thunk r => exact absurd rfl (hnt r)
    | bool b => simp only [show AsArray (.bool b) = .ok arrv from h3]
    | num f => simp only [show AsArray (.num f) = .ok arrv from h3]
    | str s => simp only [show AsArray (.str s) = .ok arrv from h3]
    | arr xs => simp only [show AsArray (.arr xs) = .ok arrv from h3]
    | obj m => simp only [show AsArray (.obj m) = .ok arrv from h3]
  · unfold ProcessAlias
    have hlen : (aliasName.length == 0) = false := by
      cases hd : aliasName.data with
      | nil =>
        exfalso
        apply hne
        cases aliasName with
        | mk d => exact congrArg String.mk hd
      | cons a l =>
        have hl : aliasName.length = l.length + 1 := by
          show aliasName.data.length = _
          rw [hd]
          rfl
        simp [hl]
    rw [hlen]
    simp only [Bool.false_eq_true, if_false]
  · rfl

/-- Witness for C5: a CTE thunk table, dual mode, a missing name, a plain
array table with aliasName wrapping, and the aliasName laws. -/
theorem C5_from_aliased_table_witness :
    BuilFromAliasedTable [(("t"), .thunk (.ok (.arr [.num (.finite 1)])))]
        ("") ("") ("t") ⟨[], false⟩ =
      .ok { fromSet := ProcessAlias [.num (.finite 1)] (""), dual := false } ∧
    BuilFromAliasedTable [(("x"), .num (.finite 1))] ("") ("") ("dual") ⟨[], false⟩ =
      .ok { fromSet := [.obj [(("x"), .num (.finite 1))]], dual := true } ∧
    BuilFromAliasedTable [(("x"), .num (.finite 1))] ("") ("") ("gone") ⟨[], false⟩ =
      .ok ⟨[], false⟩ ∧
    BuilFromAliasedTable [(("users"), .arr [.num (.finite 7)])] ("u") ("") ("users")
        ⟨[], false⟩ =
      .ok { fromSet := ProcessAlias [.num (.finite 7)] ("u"), dual := false } ∧
    ProcessAlias [.num (.finite 7)] ("u") =
      [.num (.finite 7)].map (fun j => .obj [(("u"), j)]) := by
  have hword : ∀ (v : Value) (k : String), k.data ≠ [] →
      (∀ c ∈ k.data, isWordChar c = true) →
      ExecReader (.obj [(k, v)]) k = .ok v := by
    intro v k hne hw
    rw [ExecReader_word _ k hne hw, Reader_key_obj, Reader_nil]
    simp [SelectObject, mapGet, List.find?]
  refine ⟨?_, ?_, ?_, ?_, ?_⟩
  · exact (C5_from_aliased_table _ ("") ("") ("t") ⟨[], false⟩).1
      (.ok (.arr [.num (.finite 1)])) (.arr [.num (.finite 1)]) [.num (.finite 1)]
      (hword _ ("t") (by decide) (by decide)) rfl rfl
  · exact (C5_from_aliased_table [(("x"), .num (.finite 1))] ("") ("") ("dual")
      ⟨[], false⟩).2.1
      (by
        rw [ExecReader_word _ ("dual") (by decide) (by decide), Reader_key_obj, Reader_nil]
        simp [SelectObject, mapGet, List.find?]) rfl rfl
  · exact (C5_from_aliased_table [(("x"), .num (.finite 1))] ("") ("") ("gone")
      ⟨[], false⟩).2.2.1
      (by
        rw [show (if ((("" : String).length == 0) = true) then ("gone" : String)
            else ("" : String) ++ (".") ++ ("gone")) = ("gone" : String) from rfl]
        rw [ExecReader_word _ ("gone") (by decide) (by decide), Reader_key_obj, Reader_nil]
        simp [SelectObject, mapGet, List.find?])
      (by intro h; exact absurd h.2 (by decide))
  · exact (C5_from_aliased_table _ ("u") ("") ("users") ⟨[], false⟩).2.2.2.1
      (.arr [.num (.finite 7)]) [.num (.finite 7)]
      (hword _ ("users") (by decide) (by decide)) (by simp) (by simp) rfl
  · exact (C5_from_aliased_table [] ("u") ("") ("users") ⟨[], false⟩).2.2.2.2.1
      [.num (.finite 7)] (by decide)

/-- One level of array flattening, the unit the claim's "flattens by
`(number of dimensions - 1)` levels" is measured in: nested arrays are
spliced, other items kept. -/
def flattenOnce : List Value → List Value
  | [] => []
  | .arr a :: rest => a ++ flattenOnce rest
  | v :: rest => v :: flattenOnce rest

theorem flattenOnce_append (a b : List Value) :
    flattenOnce (a ++ b) = flattenOnce a ++ flattenOnce b := by
  induction a with
  | nil => rfl
  | cons x rest ih =>
    cases x <;> simp [flattenOnce, ih]

theorem flattenOnce_iterate_nil (d : Nat) : flattenOnce^[d] [] = [] := by
  induction d with
  | zero => rfl
  | succ n ih => rw [Function.iterate_succ_apply, show flattenOnce [] = [] from rfl, ih]

theorem flattenOnce_iterate_append (d : Nat) (a b : List Value) :
    flattenOnce^[d] (a ++ b) = flattenOnce^[d] a ++ flattenOnce^[d] b := by
  induction d generalizing a b with
  | zero => rfl
  | succ n ih =>
    rw [Function.iterate_succ_apply, Function.iterate_succ_apply,
      Function.iterate_succ_apply, flattenOnce_append, ih]

theorem flattenOnce_iterate_single (d : Nat) (v : Value) (hv : ∀ a, v ≠ .arr a) :
    flattenOnce^[d] [v] = [v] := by
  induction d with
  | zero => rfl
  | succ n ih =>
    rw [Function.iterate_succ_apply]
    have : flattenOnce [v] = [v] := by
      cases v with
      | arr a => exact absurd rfl (hv a)
      | null => rfl
      | bool b => rfl
      | num f => rfl
      | str s => rfl
      | obj m => rfl
      | thunk r => rfl
    rw [this, ih]

/-- `Unwind` with a non-negative depth is exactly `depth` iterations of
one-level flattening. -/
theorem Unwind_eq_iterate (d : Nat) (xs : List Value) :
    Unwind xs (d : Int) = flattenOnce^[d] xs := by
  induction d generalizing xs with
  | zero => rw [Unwind]; rfl
  | succ n ih =>
    rw [Unwind]
    rw [if_neg (by omega)]
    rw [show ((n + 1 : ℕ) : ℤ) - 1 = (n : ℤ) from by push_cast; ring]
    rw [Function.iterate_succ_apply]
    induction xs with
    | nil =>
      rw [UnwindLoop]
      rw [show flattenOnce [] = [] from rfl, flattenOnce_iterate_nil]
    | cons x rest ihx =>
      cases x with
      | arr a =>
        rw [UnwindLoop]
        rw [show flattenOnce (Value.arr a :: rest) = a ++ flattenOnce rest from rfl]
        rw [flattenOnce_iterate_append, ih a, ihx]
      | null =>
        rw [UnwindLoop,
          show flattenOnce (Value.null :: rest) = .null :: flattenOnce rest from rfl,
          show (Value.null :: flattenOnce rest) = [Value.null] ++ flattenOnce rest from rfl,
          flattenOnce_iterate_append, flattenOnce_iterate_single n _ (by intro a h; cases h),
          ihx]
        · rfl
        all_goals exact fun a h => Value.noConfusion h
      | bool b =>
        rw [UnwindLoop,
          show flattenOnce (Value.bool b :: rest) = .bool b :: flattenOnce rest from rfl,
          show (Value.bool b :: flattenOnce rest) = [Value.bool b] ++ flattenOnce rest from rfl,
          flattenOnce_iterate_append, flattenOnce_iterate_single n _ (by intro a h; cases h),
          ihx]
        · rfl
        all_goals exact fun a h => Value.noConfusion h
      | num f =>
        rw [UnwindLoop,
          show flattenOnce (Value.num f :: rest) = .num f :: flattenOnce rest from rfl,
          show (Value.num f :: flattenOnce rest) = [Value.num f] ++ flattenOnce rest from rfl,
          flattenOnce_iterate_append, flattenOnce_iterate_single n _ (by intro a h; cases h),
          ihx]
        · rfl
        all_goals exact fun a h => Value.noConfusion h
      | str s =>
        rw [UnwindLoop,
          show flattenOnce (Value.str s :: rest) = .str s :: flattenOnce rest from rfl,
          show (Value.str s :: flattenOnce rest) = [Value.str s] ++ flattenOnce rest from rfl,
          flattenOnce_iterate_append, flattenOnce_iterate_single n _ (by intro a h; cases h),
          ihx]
        · rfl
        all_goals exact fun a h => Value.noConfusion h
      | obj m =>
        rw [UnwindLoop,
          show flattenOnce (Value.obj m :: rest) = .obj m :: flattenOnce rest from rfl,
          show (Value.obj m :: flattenOnce rest) = [Value.obj m] ++ flattenOnce rest from rfl,
          flattenOnce_iterate_append, flattenOnce_iterate_single n _ (by intro a h; cases h),
          ihx]
        · rfl
        all_goals exact fun a h => Value.noConfusion h
      | thunk r =>
        rw [UnwindLoop,
          show flattenOnce (Value.thunk r :: rest) = .thunk r :: flattenOnce rest from rfl,
          show (Value.thunk r :: flattenOnce rest) = [Value.thunk r] ++ flattenOnce rest from rfl,
          flattenOnce_iterate_append, flattenOnce_iterate_single n _ (by intro a h; cases h),
          ihx]
        · rfl
        all_goals exact fun a h => Value.noConfusion h

/-- The `each` loop agrees with monadic mapping of the remaining
dimensions over the elements. -/
theorem SelectDimensionEach_eq_mapM (xs : List Value) (rest : List IdxSel) :
    SelectDimensionEach xs rest = xs.mapM (fun x => SelectDimension x rest) := by
  induction xs with
  | nil => rw [SelectDimensionEach]; rfl
  | cons x more ih =>
    rw [SelectDimensionEach, List.mapM_cons, ih]
    cases SelectDimension x rest with
    | error e => rfl
    | ok rs =>
      simp only [exceptBindOk]
      cases more.mapM (fun x => SelectDimension x rest) with
      | error e => rfl
      | ok rss => rfl

/-- C6: with the `keep=>` prefix (a `KeepDimension` selection) the
selection's result is returned with its dimensionality preserved — no
flattening; without it the default policy returns the selection flattened
by `(number of dimensions − 1)` one-level flattens (a non-array selection
passes through unchanged); and the individual dimension steps are: index
`n` selects element `n`, `each` maps the remaining dimensions over the
elements, and a range slices `[a, b)` with `begin` as `0` and `end` as
the array length. -/
theorem C6_keep_preserves_default_unwinds (xs : List Value) (dims : List IdxSel) :
    (∀ res : Value, SelectDimension (.arr xs) dims = .ok res →
        Reader (.arr xs) [.keep dims] = .ok res) ∧
    (∀ ys : List Value, dims ≠ [] → SelectDimension (.arr xs) dims = .ok (.arr ys) →
        Reader (.arr xs) [.idxs dims] = .ok (.arr (flattenOnce^[dims.length - 1] ys))) ∧
    (∀ res : Value, SelectDimension (.arr xs) dims = .ok res → (∀ a, res ≠ .arr a) →
        Reader (.arr xs) [.idxs dims] = .ok res) ∧
    (∀ (n : Int) (rest : List IdxSel) (x : Value), 0 ≤ n → xs.get? n.toNat = some x →
        SelectDimension (.arr xs) (.idx n :: rest) = SelectDimension x rest) ∧
    (∀ rest : List IdxSel,
        SelectDimensionEach xs rest = xs.mapM (fun x => SelectDimension x rest) ∧
        SelectDimension (.arr xs) (.idx (-1) :: rest) =
          match SelectDimensionEach xs rest with
          | .error e => .error e
          | .ok elems => .ok (.arr elems)) ∧
    (∀ (a b : Int) (rest : List IdxSel), 0 ≤ a → a ≤ b → b ≤ (xs.length : Int) →
        SelectDimension (.arr xs) (.rng a b :: rest) =
          SelectDimension (.arr ((xs.drop a.toNat).take (b - a).toNat)) rest) ∧
    (∀ rest : List IdxSel,
        SelectDimension (.arr xs) (.rng (-1) (-1) :: rest) =
          SelectDimension (.arr xs) rest) := by
  refine ⟨fun res h => ?_, fun ys hne h => ?_, fun res h hna => ?_,
    fun n rest x h0 hget => ?_, fun rest => ⟨SelectDimensionEach_eq_mapM xs rest, ?_⟩,
    fun a b rest h0 hab hbl => ?_, fun rest => ?_⟩
  · rw [Reader_keep_arr, h]
    simp only [Reader_nil]
  · rw [Reader_idxs_arr]
    unfold SelectMany
    rw [h]
    simp only []
    rw [show ((dims.length : Int) - 1) = ((dims.length - 1 : ℕ) : ℤ) from by
      cases dims with
      | nil => exact absurd rfl hne
      | cons d rest2 => simp only [List.length_cons]; push_cast; omega]
    rw [Unwind_eq_iterate (dims.length - 1) ys]
    simp only [Reader_nil]
  · rw [Reader_idxs_arr]
    unfold SelectMany
    rw [h]
    cases res with
    | arr a => exact absurd rfl (hna a)
    | null => simp only [Reader_nil]
    | bool b => simp only [Reader_nil]
    | num f => simp only [Reader_nil]
    | str s => simp only [Reader_nil]
    | obj m => simp only [Reader_nil]
    | thunk r => simp only [Reader_nil]
  · rw [SelectDimension]
    have hn1 : (n == -1) = false := by
      simp only [beq_eq_false_iff_ne, ne_eq]
      omega
    rw [hn1]
    simp only [Bool.false_eq_true, if_false, hget]
    rw [if_neg (by omega)]
  · rw [SelectDimension]
    rfl
  · rw [SelectDimension]
    have ha1 : (a == -1) = false := by
      simp only [beq_eq_false_iff_ne, ne_eq]
      omega
    have hb1 : (b == -1) = false := by
      simp only [beq_eq_false_iff_ne, ne_eq]
      intro hb
      subst hb
      omega
    rw [ha1, hb1]
    simp only [Bool.false_eq_true, if_false]
    rw [if_pos ⟨h0, hab, hbl⟩]
  · rw [SelectDimension]
    simp only [beq_self_eq_true, if_true]
    rw [if_pos (by
      refine ⟨le_refl 0, by omega, by omega⟩)]
    rw [show (((xs.length : Int)) - 0).toNat = xs.length from by omega]
    rw [show (0 : Int).toNat = 0 from rfl]
    rw [List.drop_zero, List.take_length]

/-- Witness for C6 at concrete inputs: on the two-dimensional array
`[[1, 2], [3]]` with dimensions `each, each`, the keep form returns the
array with its nesting preserved while the default form flattens once to
`[1, 2, 3]`; a scalar selection passes through the default form
unflattened; index `1` selects the second element; `each` with no further
dimensions returns the array itself; and the range `[0, 1)` slices the
first element. -/
theorem C6_keep_preserves_default_unwinds_witness :
    Reader (.arr [.arr [.num (.finite 1), .num (.finite 2)], .arr [.num (.finite 3)]])
        [.keep [.idx (-1), .idx (-1)]] =
      .ok (.arr [.arr [.num (.finite 1), .num (.finite 2)], .arr [.num (.finite 3)]]) ∧
    Reader (.arr [.arr [.num (.finite 1), .num (.finite 2)], .arr [.num (.finite 3)]])
        [.idxs [.idx (-1), .idx (-1)]] =
      .ok (.arr [.num (.finite 1), .num (.finite 2), .num (.finite 3)]) ∧
    Reader (.arr [.num (.finite 1), .num (.finite 2)]) [.idxs [.idx 0]] =
      .ok (.num (.finite 1)) ∧
    SelectDimension (.arr [.arr [.num (.finite 1), .num (.finite 2)], .arr [.num (.finite 3)]])
        [.idx 1] = SelectDimension (.arr [.num (.finite 3)]) [] ∧
    SelectDimension (.arr [.arr [.num (.finite 1), .num (.finite 2)], .arr [.num (.finite 3)]])
        [.idx (-1)] =
      .ok (.arr [.arr [.num (.finite 1), .num (.finite 2)], .arr [.num (.finite 3)]]) ∧
    SelectDimension (.arr [.arr [.num (.finite 1), .num (.finite 2)], .arr [.num (.finite 3)]])
        [.rng 0 1] = SelectDimension (.arr [.arr [.num (.finite 1), .num (.finite 2)]]) [] ∧
    SelectDimension (.arr [.arr [.num (.finite 1), .num (.finite 2)], .arr [.num (.finite 3)]])
        [.rng (-1) (-1)] =
      SelectDimension (.arr [.arr [.num (.finite 1), .num (.finite 2)], .arr [.num (.finite 3)]]) [] := by
  refine ⟨?_, ?_, ?_, ?_, ?_, ?_, ?_⟩
  · exact (C6_keep_preserves_default_unwinds
      [.arr [.num (.finite 1), .num (.finite 2)], .arr [.num (.finite 3)]]
      [.idx (-1), .idx (-1)]).1 _ (by simp [SelectDimension, SelectDimensionEach])
  · exact ((C6_keep_preserves_default_unwinds
      [.arr [.num (.finite 1), .num (.finite 2)], .arr [.num (.finite 3)]]
      [.idx (-1), .idx (-1)]).2.1
      [.arr [.num (.finite 1), .num (.finite 2)], .arr [.num (.finite 3)]]
      (by simp) (by simp [SelectDimension, SelectDimensionEach])).trans rfl
  · exact (C6_keep_preserves_default_unwinds
      [.num (.finite 1), .num (.finite 2)] [.idx 0]).2.2.1
      (.num (.finite 1)) (by simp [SelectDimension])
      (fun a h => Value.noConfusion h)
  · exact (C6_keep_preserves_default_unwinds
      [.arr [.num (.finite 1), .num (.finite 2)], .arr [.num (.finite 3)]]
      [.idx 1]).2.2.2.1 1 [] (.arr [.num (.finite 3)]) (by decide) rfl
  · exact (((C6_keep_preserves_default_unwinds
      [.arr [.num (.finite 1), .num (.finite 2)], .arr [.num (.finite 3)]]
      []).2.2.2.2.1 []).2).trans (by simp [SelectDimensionEach, SelectDimension])
  · exact ((C6_keep_preserves_default_unwinds
      [.arr [.num (.finite 1), .num (.finite 2)], .arr [.num (.finite 3)]]
      []).2.2.2.2.2.1 0 1 [] (by decide) (by decide) (by decide)).trans rfl
  · exact (C6_keep_preserves_default_unwinds
      [.arr [.num (.finite 1), .num (.finite 2)], .arr [.num (.finite 3)]]
      []).2.2.2.2.2.2 []

/-- Routing one row into the groups appends exactly that row to the
multiset of grouped rows. -/
theorem insertRow_bind_perm (t : GoMap) (row : Value) :
    ∀ (groups gs : List (GoMap × List Value)), insertRow groups t row = .ok gs →
    (gs.bind Prod.snd).Perm (groups.bind Prod.snd ++ [row])
  | [], gs, h => by
    simp only [insertRow] at h
    injection h with h
    subst h
    simp
  | (g, items) :: rest, gs, h => by
    simp only [insertRow] at h
    cases hm : tuplesMatch g t with
    | error e => rw [hm] at h; exact absurd h (by simp)
    | ok b =>
      rw [hm] at h
      cases b with
      | true =>
        injection h with h
        subst h
        simp only [List.cons_bind, List.append_assoc]
        exact (@List.perm_append_comm _ [row] (rest.bind Prod.snd)).append_left items |>.trans (by simp) |>.symm.trans (by simp) |>.symm
      | false =>
        cases hr : insertRow rest t row with
        | error e => rw [hr] at h; exact absurd h (by simp)
        | ok gs2 =>
          rw [hr] at h
          injection h with h
          subst h
          have ih := insertRow_bind_perm t row rest gs2 hr
          simp only [List.cons_bind, List.append_assoc]
          exact ih.append_left items

/-- The grouping loop preserves the multiset of rows: the grouped rows
are a permutation of the seed groups' rows followed by the input rows. -/
theorem groupRowsAux_bind_perm (keys : List String) :
    ∀ (rows : List Value) (groups gs : List (GoMap × List Value)),
    groupRowsAux keys rows groups = .ok gs →
    (gs.bind Prod.snd).Perm (groups.bind Prod.snd ++ rows)
  | [], groups, gs, h => by
    simp only [groupRowsAux] at h
    injection h with h
    subst h
    simp
  | row :: rest, groups, gs, h => by
    simp only [groupRowsAux] at h
    cases ht : tupleOf keys row with
    | error e => simp only [ht] at h; exact Except.noConfusion h
    | ok t =>
      simp only [ht] at h
      cases hi : insertRow groups t row with
      | error e => simp only [hi] at h; exact Except.noConfusion h
      | ok gs1 =>
        simp only [hi] at h
        have ih := groupRowsAux_bind_perm keys rest gs1 gs h
        have hp := insertRow_bind_perm t row groups gs1 hi
        refine ih.trans ?_
        refine (hp.append_right rest).trans ?_
        simp

/-- Routing a row never empties a group. -/
theorem insertRow_ne_nil (t : GoMap) (row : Value) :
    ∀ (groups gs : List (GoMap × List Value)),
    (∀ p ∈ groups, p.2 ≠ []) → insertRow groups t row = .ok gs →
    ∀ p ∈ gs, p.2 ≠ []
  | [], gs, _, h => by
    simp only [insertRow] at h
    injection h with h
    subst h
    simp
  | (g, items) :: rest, gs, hne, h => by
    simp only [insertRow] at h
    cases hm : tuplesMatch g t with
    | error e => rw [hm] at h; exact absurd h (by simp)
    | ok b =>
      rw [hm] at h
      cases b with
      | true =>
        injection h with h
        subst h
        intro p hp
        cases hp with
        | head => simp
        | tail _ hp2 => exact hne p (List.mem_cons_of_mem _ hp2)
      | false =>
        cases hr : insertRow rest t row with
        | error e => rw [hr] at h; exact absurd h (by simp)
        | ok gs2 =>
          rw [hr] at h
          injection h with h
          subst h
          intro p hp
          cases hp with
          | head => exact hne (g, items) (List.mem_cons_self _ _)
          | tail _ hp2 =>
            exact insertRow_ne_nil t row rest gs2
              (fun q hq => hne q (List.mem_cons_of_mem _ hq)) hr p hp2

/-- The grouping loop never produces an empty group. -/
theorem groupRowsAux_ne_nil (keys : List String) :
    ∀ (rows : List Value) (groups gs : List (GoMap × List Value)),
    (∀ p ∈ groups, p.2 ≠ []) → groupRowsAux keys rows groups = .ok gs →
    ∀ p ∈ gs, p.2 ≠ []
  | [], groups, gs, hne, h => by
    simp only [groupRowsAux] at h
    injection h with h
    subst h
    exact hne
  | row :: rest, groups, gs, hne, h => by
    simp only [groupRowsAux] at h
    cases ht : tupleOf keys row with
    | error e => simp only [ht] at h; exact Except.noConfusion h
    | ok t =>
      simp only [ht] at h
      cases hi : insertRow groups t row with
      | error e => simp only [hi] at h; exact Except.noConfusion h
      | ok gs1 =>
        simp only [hi] at h
        exact groupRowsAux_ne_nil keys rest gs1 gs
          (insertRow_ne_nil t row groups gs1 hne hi) h

/-- The concatenation of the groups' row lists has as many rows as the
sum of the group sizes. -/
theorem bind_snd_length (gs : List (GoMap × List Value)) :
    (gs.bind Prod.snd).length = (gs.map (fun p => p.2.length)).sum := by
  induction gs with
  | nil => rfl
  | cons p rest ih => simp [List.cons_bind, ih]

/-- C4: when grouping succeeds with at least one grouping key, the rows
collected across the groups are a permutation of the input rows (so every
input row lands in exactly one group's bucket), the sum of the group
sizes is the total row count, every group holds at least one row, and
`ExecGroupBy` renders each group as the object made of its key tuple
extended with the `"*"` entry holding the group's rows. -/
theorem C4_group_by_partition (keys : List String) (rows : List Value)
    (gs : List (GoMap × List Value)) (hk : keys ≠ [])
    (h : groupRows keys rows = .ok gs) :
    (gs.bind Prod.snd).Perm rows ∧
    (gs.map (fun p => p.2.length)).sum = rows.length ∧
    (∀ p ∈ gs, p.2 ≠ []) ∧
    ExecGroupBy keys rows =
      .ok (gs.map (fun p => Value.obj (p.1 ++ [(("*"), Value.arr p.2)]))) := by
  have hperm : (gs.bind Prod.snd).Perm rows := by
    have hp := groupRowsAux_bind_perm keys rows [] gs h
    simpa using hp
  refine ⟨hperm, ?_, ?_, ?_⟩
  · rw [← bind_snd_length]
    exact hperm.length_eq
  · exact groupRowsAux_ne_nil keys rows [] gs (by simp) h
  · unfold ExecGroupBy
    rw [show (keys.length == 0) = false from by
      cases keys with
      | nil => exact absurd rfl hk
      | cons a b => rfl]
    simp only [Bool.false_eq_true, if_false, h]

/-- Witness for C4 on `GROUP BY k` over the rows
`{k: "a", v: 1}, {k: "b"}, {k: "a", v: 2}`: the two `"a"`-rows coalesce
into one group and the `"b"`-row into another, the grouped rows permute
the input, the group sizes `2 + 1` sum to `3`, and `ExecGroupBy` renders
the two group objects with their `"*"` arrays. -/
theorem C4_group_by_partition_witness :
    ([([(("k"), Value.str ("a"))],
        [Value.obj [(("k"), .str ("a")), (("v"), .num (.finite 1))],
         Value.obj [(("k"), .str ("a")), (("v"), .num (.finite 2))]]),
      ([(("k"), Value.str ("b"))],
        [Value.obj [(("k"), .str ("b"))]])].bind Prod.snd).Perm
      [Value.obj [(("k"), .str ("a")), (("v"), .num (.finite 1))],
       Value.obj [(("k"), .str ("b"))],
       Value.obj [(("k"), .str ("a")), (("v"), .num (.finite 2))]] ∧
    ([2, 1] : List Nat).sum = 3 ∧
    ExecGroupBy [("k")]
      [Value.obj [(("k"), .str ("a")), (("v"), .num (.finite 1))],
       Value.obj [(("k"), .str ("b"))],
       Value.obj [(("k"), .str ("a")), (("v"), .num (.finite 2))]] =
      .ok [Value.obj [(("k"), .str ("a")),
             (("*"), .arr [Value.obj [(("k"), .str ("a")), (("v"), .num (.finite 1))],
                           Value.obj [(("k"), .str ("a")), (("v"), .num (.finite 2))]])],
           Value.obj [(("k"), .str ("b")),
             (("*"), .arr [Value.obj [(("k"), .str ("b"))]])]] := by
  have e1 : ExecReader (Value.obj [(("k"), .str ("a")), (("v"), .num (.finite 1))]) ("k") =
      .ok (.str ("a")) := by
    rw [ExecReader_word _ ("k") (by decide) (by decide), Reader_key_obj, Reader_nil]
    rfl
  have e2 : ExecReader (Value.obj [(("k"), .str ("b"))]) ("k") = .ok (.str ("b")) := by
    rw [ExecReader_word _ ("k") (by decide) (by decide), Reader_key_obj, Reader_nil]
    rfl
  have e3 : ExecReader (Value.obj [(("k"), .str ("a")), (("v"), .num (.finite 2))]) ("k") =
      .ok (.str ("a")) := by
    rw [ExecReader_word _ ("k") (by decide) (by decide), Reader_key_obj, Reader_nil]
    rfl
  have ht1 : tupleOf [("k")] (Value.obj [(("k"), .str ("a")), (("v"), .num (.finite 1))]) =
      .ok [(("k"), Value.str ("a"))] := by
    simp only [tupleOf, List.mapM, List.mapM.loop, e1]
    rfl
  have ht2 : tupleOf [("k")] (Value.obj [(("k"), .str ("b"))]) =
      .ok [(("k"), Value.str ("b"))] := by
    simp only [tupleOf, List.mapM, List.mapM.loop, e2]
    rfl
  have ht3 : tupleOf [("k")] (Value.obj [(("k"), .str ("a")), (("v"), .num (.finite 2))]) =
      .ok [(("k"), Value.str ("a"))] := by
    simp only [tupleOf, List.mapM, List.mapM.loop, e3]
    rfl
  have hg : groupRows [("k")]
      [Value.obj [(("k"), .str ("a")), (("v"), .num (.finite 1))],
       Value.obj [(("k"), .str ("b"))],
       Value.obj [(("k"), .str ("a")), (("v"), .num (.finite 2))]] =
      .ok [([(("k"), Value.str ("a"))],
             [Value.obj [(("k"), .str ("a")), (("v"), .num (.finite 1))],
              Value.obj [(("k"), .str ("a")), (("v"), .num (.finite 2))]]),
           ([(("k"), Value.str ("b"))],
             [Value.obj [(("k"), .str ("b"))]])] := by
    show groupRowsAux [("k")] _ [] = _
    simp only [groupRowsAux, ht1, ht2, ht3]
    rfl
  have h := C4_group_by_partition [("k")]
    [Value.obj [(("k"), .str ("a")), (("v"), .num (.finite 1))],
     Value.obj [(("k"), .str ("b"))],
     Value.obj [(("k"), .str ("a")), (("v"), .num (.finite 2))]]
    [([(("k"), Value.str ("a"))],
       [Value.obj [(("k"), .str ("a")), (("v"), .num (.finite 1))],
        Value.obj [(("k"), .str ("a")), (("v"), .num (.finite 2))]]),
     ([(("k"), Value.str ("b"))],
       [Value.obj [(("k"), .str ("b"))]])]
    (List.cons_ne_nil _ _) hg
  exact ⟨h.1, h.2.1, h.2.2.2.trans rfl⟩



/-- The token list the LIKE translation should produce: `_` becomes `.`,
`%` becomes `.*`, every other character a literal. -/
def tokensOfLike (p : List Char) : List RTok :=
  p.map (fun c => if c == '_' then RTok.dot else if c == '%' then RTok.dotStar else RTok.lit c)

/-- The two `strings.ReplaceAll` passes of `RegexComparison`. -/
def likeTrans (p : List Char) : List Char :=
  replaceAllChar '%' ['.', '*'] (replaceAllChar '_' ['.'] p)

theorem likeTrans_nil : likeTrans [] = [] := rfl

theorem likeTrans_cons (c : Char) (p : List Char) :
    likeTrans (c :: p) =
      if c == '_' then '.' :: likeTrans p
      else if c == '%' then '.' :: '*' :: likeTrans p
      else c :: likeTrans p := by
  cases h1 : (c == '_') with
  | true =>
    have hc : c = '_' := eq_of_beq h1
    subst hc
    simp [likeTrans, replaceAllChar]
  | false =>
    cases h2 : (c == '%') with
    | true =>
      have hc : c = '%' := eq_of_beq h2
      subst hc
      simp [likeTrans, replaceAllChar]
    | false =>
      simp [likeTrans, replaceAllChar, h1, h2]

theorem likeTrans_head (p : List Char) (hm : ∀ c ∈ p, regexMeta c = false) :
    ∀ t, likeTrans p ≠ '*' :: t := by
  intro t
  cases p with
  | nil => simp [likeTrans_nil]
  | cons c rest =>
    rw [likeTrans_cons]
    cases h1 : (c == '_') with
    | true => simp
    | false =>
      cases h2 : (c == '%') with
      | true => simp
      | false =>
        simp only [Bool.false_eq_true, if_false]
        intro hcontra
        have hc : c = '*' := (List.cons.injEq _ _ _ _ ▸ hcontra).1
        subst hc
        have := hm '*' (List.mem_cons_self _ _)
        simp [regexMeta] at this

theorem parseSimpleRegex_dotStar (w : List Char) :
    parseSimpleRegex ('.' :: '*' :: w) =
      (parseSimpleRegex w).map (fun ts => RTok.dotStar :: ts) := rfl

theorem parseSimpleRegex_dot (w : List Char) (hw : ∀ t, w ≠ '*' :: t) :
    parseSimpleRegex ('.' :: w) =
      (parseSimpleRegex w).map (fun ts => RTok.dot :: ts) := by
  cases w with
  | nil => rfl
  | cons d ds =>
    have hd : (d == '*') = false := by
      simp only [beq_eq_false_iff_ne, ne_eq]
      intro h
      subst h
      exact hw ds rfl
    simp [parseSimpleRegex, hd]

theorem parseSimpleRegex_lit (c : Char) (w : List Char) (hc : regexMeta c = false) :
    parseSimpleRegex (c :: w) =
      (parseSimpleRegex w).map (fun ts => RTok.lit c :: ts) := by
  have hdot : (c == '.') = false := by
    simp only [beq_eq_false_iff_ne, ne_eq]
    intro h
    subst h
    simp [regexMeta] at hc
  rw [parseSimpleRegex.eq_def]
  simp only [hdot, Bool.false_eq_true, if_false, hc]

theorem parse_likeTrans (p : List Char) (hm : ∀ c ∈ p, regexMeta c = false) :
    parseSimpleRegex (likeTrans p) = some (tokensOfLike p) := by
  induction p with
  | nil => rfl
  | cons c rest ih =>
    have hmr : ∀ x ∈ rest, regexMeta x = false :=
      fun x hx => hm x (List.mem_cons_of_mem _ hx)
    have ihr := ih hmr
    rw [likeTrans_cons]
    cases h1 : (c == '_') with
    | true =>
      simp only [if_true]
      rw [parseSimpleRegex_dot (likeTrans rest) (likeTrans_head rest hmr), ihr]
      have hc : c = '_' := eq_of_beq h1
      subst hc
      simp [tokensOfLike]
    | false =>
      cases h2 : (c == '%') with
      | true =>
        simp only [Bool.false_eq_true, if_false, if_true]
        rw [parseSimpleRegex_dotStar, ihr]
        have hc : c = '%' := eq_of_beq h2
        subst hc
        simp [tokensOfLike]
      | false =>
        simp only [Bool.false_eq_true, if_false]
        rw [parseSimpleRegex_lit c (likeTrans rest) (hm c (List.mem_cons_self _ _)), ihr]
        have n1 : c ≠ '_' := by simpa using h1
        have n2 : c ≠ '%' := by simpa using h2
        simp [tokensOfLike, n1, n2]



/-- Fuelled direct LIKE matcher, the specification-side semantics: `_`
matches any single non-newline character, `%` any sequence of non-newline
characters, and every other pattern character matches itself. -/
def likeMatchesF : Nat → List Char → List Char → Bool
  | 0, _, _ => false
  | _ + 1, [], [] => true
  | _ + 1, [], _ :: _ => false
  | fuel + 1, c :: ps, s =>
    if c == '%' then
      likeMatchesF fuel ps s ||
        (match s with
         | [] => false
         | d :: ds => !(d == '\n') && likeMatchesF fuel (c :: ps) ds)
    else
      match s with
      | [] => false
      | d :: ds =>
        (if c == '_' then !(d == '\n') else c == d) && likeMatchesF fuel ps ds

/-- Direct LIKE matching of a string against a pattern; the fuel bound
covers every reachable recursion. -/
def likeMatches (p s : List Char) : Bool :=
  likeMatchesF (p.length + s.length + 1) p s

/-- With enough fuel the direct LIKE matcher agrees with regex matching
of the translated token list. -/
theorem likeMatchesF_eq_rtoksMatch :
    ∀ (fuel : Nat) (p s : List Char), p.length + s.length < fuel →
    likeMatchesF fuel p s = rtoksMatch (tokensOfLike p) s
  | 0, p, s, hf => by omega
  | fuel + 1, [], [], _ => by
    show likeMatchesF (fuel + 1) [] [] = rtoksMatch [] []
    rw [likeMatchesF, rtoksMatch]
  | fuel + 1, [], d :: ds, _ => by
    show likeMatchesF (fuel + 1) [] (d :: ds) = rtoksMatch [] (d :: ds)
    rw [likeMatchesF, rtoksMatch]
  | fuel + 1, c :: ps, s, hf => by
    rw [likeMatchesF.eq_def]
    simp only []
    cases h2 : (c == '%') with
    | true =>
      have hc : c = '%' := eq_of_beq h2
      simp only [if_true]
      have htok : tokensOfLike (c :: ps) = RTok.dotStar :: tokensOfLike ps := by
        subst hc
        simp [tokensOfLike]
      rw [htok]
      have ih1 := likeMatchesF_eq_rtoksMatch fuel ps s (by simp at hf ⊢; omega)
      cases s with
      | nil =>
        rw [rtoksMatch, ih1]
      | cons d ds =>
        have ih2 := likeMatchesF_eq_rtoksMatch fuel (c :: ps) ds
          (by simp at hf ⊢; omega)
        rw [rtoksMatch, ih1]
        simp only [ih2, htok]
    | false =>
      simp only [Bool.false_eq_true, if_false]
      cases h1 : (c == '_') with
      | true =>
        have hc : c = '_' := eq_of_beq h1
        have htok : tokensOfLike (c :: ps) = RTok.dot :: tokensOfLike ps := by
          subst hc
          simp [tokensOfLike]
        rw [htok]
        cases s with
        | nil => rw [rtoksMatch]
        | cons d ds =>
          rw [rtoksMatch]
          simp only [if_true]
          have ih := likeMatchesF_eq_rtoksMatch fuel ps ds (by simp at hf ⊢; omega)
          rw [ih]
      | false =>
        have n1 : c ≠ '_' := by simpa using h1
        have n2 : c ≠ '%' := by simpa using h2
        have htok : tokensOfLike (c :: ps) = RTok.lit c :: tokensOfLike ps := by
          simp [tokensOfLike, n1, n2]
        rw [htok]
        cases s with
        | nil => rw [rtoksMatch]
        | cons d ds =>
          rw [rtoksMatch]
          simp only [Bool.false_eq_true, if_false]
          have ih := likeMatchesF_eq_rtoksMatch fuel ps ds (by simp at hf ⊢; omega)
          rw [ih]

/-- Direct LIKE matching agrees with regex matching of the translated
token list. -/
theorem likeMatches_eq_rtoksMatch (p s : List Char) :
    likeMatches p s = rtoksMatch (tokensOfLike p) s :=
  likeMatchesF_eq_rtoksMatch (p.length + s.length + 1) p s (by omega)



/-- Matching against an anchored pattern strips the anchors and fully
matches the body. -/
theorem regexpMatchModelled_anchored (w : List Char) (s : String) :
    regexpMatchModelled (String.mk (('^' :: w) ++ ['$'])) s =
      match parseSimpleRegex w with
      | some toks => .ok (rtoksMatch toks s.data)
      | none => .error (("regex outside the modelled subset")) := by
  unfold regexpMatchModelled
  rw [show ((String.mk (('^' :: w) ++ ['$'])).data) = '^' :: (w ++ ['$']) from rfl]
  simp only []
  rw [List.getLast?_concat]
  simp only []
  rw [List.dropLast_concat]

/-- C8: for every left value and every LIKE pattern whose lower-cased
form has no regex metacharacters, the LIKE comparison lower-cases the
pattern, replaces `_` with `.` and `%` with `.*`, anchors with `^...$`,
and matches the lower-cased textual form of the left value — which
coincides with direct LIKE matching of the lower-cased text against the
lower-cased pattern. -/
theorem C8_like_translation (left : Value) (pattern : String)
    (hm : ∀ c ∈ (goToLower pattern).data, regexMeta c = false) :
    RegexComparison left pattern =
      .ok (likeMatches (goToLower pattern).data (goToLower (sprintV left)).data) := by
  show regexpMatchModelled
      (String.mk (('^' :: likeTrans (goToLower pattern).data) ++ ['$']))
      (goToLower (sprintV left)) = _
  rw [regexpMatchModelled_anchored]
  rw [parse_likeTrans _ hm]
  simp only []
  rw [likeMatches_eq_rtoksMatch]



/-- Witness for C8: the pattern `h_l%` is metacharacter-free, matches
`HeLLo` case-insensitively, and rejects `World`. -/
theorem C8_like_translation_witness :
    (∀ c ∈ (goToLower ("h_l%")).data, regexMeta c = false) ∧
    RegexComparison (.str ("HeLLo")) ("h_l%") = .ok true ∧
    RegexComparison (.str ("World")) ("h_l%") = .ok false := by
  have hs1 : sprintV (.str ("HeLLo")) = ("HeLLo") := by rw [sprintV]
  have hs2 : sprintV (.str ("World")) = ("World") := by rw [sprintV]
  refine ⟨by decide, ?_, ?_⟩
  · refine (C8_like_translation (.str ("HeLLo")) ("h_l%") (by decide)).trans ?_
    rw [hs1]
    rfl
  · refine (C8_like_translation (.str ("World")) ("h_l%") (by decide)).trans ?_
    rw [hs2]
    rfl


end GenQL
